import Mathlib

/-!
Verification development for the Vitis vinifera expression-data loader
(`vitis_algs.data.loader` and `vitis_algs.data.datasets`).

The Python source is shallowly embedded: pandas `DataFrame`s become
explicit lists of rows keyed by strings, file contents become already
parsed tables (the model starts where `pd.read_csv` ends, so a table is
the header row plus gene-keyed numeric rows), reads of a directory tree
become an explicit tree value whose entries the loader sorts exactly as
`sorted(os.listdir(...))` does, and fallible constructors return
`Except`.  Numeric cell values are `Int`; cells created by the outer
join of `pd.concat` (pandas `NaN`) are `none` in `Option Int`.
-/

namespace VitisSpec

/-! ### Filename parsing (`loader.py`: `GSE_REGEX`,
`_parse_gse_from_filename`, `_parse_cultivar_from_filename`) -/

/-- Model of `re.compile(r"(GSE\d+)", re.IGNORECASE)` attempted at the head of
a character list: the leading characters must spell `gse` case-insensitively
followed by at least one ASCII digit; the match text is the greedy digit run.
The Python `.upper()` of the match text is exactly the string built here,
since upper-casing digits is the identity. -/
def gseAt (cs : List Char) : Option String :=
  match cs with
  | g :: s :: e :: rest =>
    if g.toLower = 'g' ∧ s.toLower = 's' ∧ e.toLower = 'e' then
      let ds := rest.takeWhile Char.isDigit
      if ds.isEmpty then none else some ("GSE" ++ String.mk ds)
    else none
  | _ => none

/-- Leftmost-match search of the `GSE\d+` pattern, as `re.search` performs. -/
def gseFind : List Char → Option String
  | [] => none
  | c :: cs =>
    match gseAt (c :: cs) with
    | some r => some r
    | none => gseFind cs

/-- Model of `VitisExpressionData._parse_gse_from_filename`. -/
def parse_gse_from_filename (fname : String) : String :=
  (gseFind fname.data).getD "UNKNOWN"

/-- Boolean test used by the soundness statements: does the regex pattern
match starting at offset `i` of `cs` (three letters `gse` in either case,
then a digit)? -/
def gseMatchAt (cs : List Char) (i : Nat) : Bool :=
  match cs.drop i with
  | g :: s :: e :: d :: _ =>
    g.toLower = 'g' && s.toLower = 's' && e.toLower = 'e' && d.isDigit
  | _ => false

/-- Substring occurrence as a proposition: `needle` occurs contiguously
inside `hay`. -/
def occursIn (needle hay : List Char) : Prop :=
  ∃ pre post, hay = pre ++ needle ++ post

/-- Executable prefix test on character lists. -/
def startsWithChars : List Char → List Char → Bool
  | [], _ => true
  | _ :: _, [] => false
  | a :: as, b :: bs => a = b && startsWithChars as bs

/-- Executable substring test on character lists (Python `in` on `str`). -/
def containsSub (needle : List Char) : List Char → Bool
  | [] => needle.isEmpty
  | c :: cs => startsWithChars needle (c :: cs) || containsSub needle cs

/-- Model of `VitisExpressionData._parse_cultivar_from_filename`:
lower-case the filename, then test the closed keyword vocabulary in the
source's order (`mueller` before `regent`), first hit wins. -/
def parse_cultivar_from_filename (fname : String) : Option String :=
  let lower := fname.data.map Char.toLower
  if containsSub "mueller".data lower then some "mueller"
  else if containsSub "regent".data lower then some "regent"
  else none

/-! ### Data model (`loader.py`: `VitisSampleInfo`, per-file and merged
`DataFrame`s, error values) -/

/-- Model of the `VitisSampleInfo` dataclass. -/
structure VitisSampleInfo where
  sample_id : String
  original_name : String
  tissue : String
  condition : String
  gse_accession : String
  cultivar : Option String
  file_path : String
deriving DecidableEq, Repr

/-- A tab-separated count file as `pd.read_csv(fpath, sep="\t", header=0)`
returns it: the header (`cols`, whose head is the gene-identifier column)
and the data rows, each a gene identifier plus one numeric value per
remaining column. -/
structure RawTable where
  cols : List String
  rows : List (String × List Int)
deriving DecidableEq, Repr

/-- A per-file gene-indexed matrix after `set_index("Gene")` and column
renaming: `cols` are the synthesized sample identifiers. -/
structure PerFileDF where
  cols : List String
  rows : List (String × List Int)
deriving DecidableEq, Repr

/-- The merged counts matrix produced by `pd.concat(per_file_dfs, axis=1)`:
cells that the outer join fills with `NaN` are `none`. -/
structure MergedDF where
  gindex : List String
  cols : List String
  rows : List (String × List (Option Int))
deriving DecidableEq, Repr

/-- The exceptions the loader raises: `FileNotFoundError` for a missing
subset directory, `ValueError` for a file without sample columns,
`RuntimeError` for an empty corpus and for an empty gene intersection. -/
inductive LoadError where
  | dirNotFound (path : String)
  | malformedInput (path : String)
  | emptyCorpus
  | noCommonGenes
deriving DecidableEq, Repr

/-- The gene identifiers (row keys) of a per-file matrix. -/
def PerFileDF.gkeys (df : PerFileDF) : List String := df.rows.map Prod.fst

/-- Lexicographic less-or-equal on character lists, by code point — the
order Python string comparison and `sorted` use. -/
def lexLeChars : List Char → List Char → Bool
  | [], _ => true
  | _ :: _, [] => false
  | a :: as, b :: bs =>
    if a < b then true
    else if b < a then false
    else lexLeChars as bs

/-- Python `s1 <= s2` on strings. -/
def strLe (a b : String) : Bool := lexLeChars a.data b.data

instance : DecidableRel (fun a b : String => strLe a b = true) :=
  fun a b => inferInstanceAs (Decidable (strLe a b = true))

/-- Python `sorted` on strings (lexicographic by code point). -/
def sortStrings (l : List String) : List String :=
  List.insertionSort (fun a b : String => strLe a b = true) l

/-- Column-wise sum of equal-length numeric rows (`groupby(...).sum()`). -/
def sumVals (n : Nat) (vss : List (List Int)) : List Int :=
  vss.foldl (fun acc vs => acc.zipWith (· + ·) vs) (List.replicate n 0)

/-- Model of `df.groupby(df.index).sum()`: group keys are the distinct gene
identifiers in sorted order (pandas `groupby` sorts keys by default), and
each group's values are summed column-wise. -/
def dedupSum (n : Nat) (rows : List (String × List Int)) : List (String × List Int) :=
  (sortStrings (rows.map Prod.fst).dedup).map
    (fun g => (g, sumVals n ((rows.filter (fun r => decide (r.1 = g))).map Prod.snd)))

/-! ### FileParser (`loader.py`: `VitisExpressionData._load_single_file`) -/

/-- The per-column `VitisSampleInfo` records built in `_load_single_file`:
one per sample column (every header column but the first), with
`sample_id = f"{tissue}|{gse}|{original_name}"`. -/
def fileSampleInfos (fpath fname tissue condition : String) (tbl : RawTable) :
    List VitisSampleInfo :=
  let gse := parse_gse_from_filename fname
  let cultivar := parse_cultivar_from_filename fname
  (tbl.cols.drop 1).map (fun c =>
    { sample_id := tissue ++ "|" ++ gse ++ "|" ++ c
      original_name := c
      tissue := tissue
      condition := condition
      gse_accession := gse
      cultivar := cultivar
      file_path := fpath })

/-- Model of `VitisExpressionData._load_single_file`, starting from the
parsed table.  The unconditional rename of the first column to `"Gene"`
followed by `set_index("Gene")` is the split of each row into its key and
its values, already present in `RawTable`.  Duplicate gene rows are summed
only when the index is not unique, exactly as the source guards with
`df.index.is_unique`. -/
def load_single_file (fpath fname tissue condition : String) (tbl : RawTable) :
    Except LoadError (PerFileDF × List VitisSampleInfo) :=
  if tbl.cols.length < 2 then .error (.malformedInput fpath)
  else
    let rows := if (tbl.rows.map Prod.fst).Nodup then tbl.rows
                else dedupSum (tbl.cols.length - 1) tbl.rows
    let infos := fileSampleInfos fpath fname tissue condition tbl
    .ok ({ cols := infos.map VitisSampleInfo.sample_id, rows := rows }, infos)

/-! ### Directory tree and discovery (`loader.py`:
`VitisExpressionData._load_all`) -/

/-- One file of a tissue directory: its name and its parsed content. -/
structure FileEntry where
  fname : String
  table : RawTable
deriving DecidableEq, Repr

/-- One tissue subdirectory (the source skips non-directory entries of the
subset directory, so the model only holds directories). -/
structure TissueDir where
  tname : String
  files : List FileEntry
deriving DecidableEq, Repr

/-- The subset directory `data_root/vitis_vinifera/<subset>`, as an
unordered enumeration of tissue directories; the loader sorts it itself. -/
structure SubsetDir where
  tissues : List TissueDir
deriving DecidableEq, Repr

instance : DecidableRel (fun a b : FileEntry => strLe a.fname b.fname = true) :=
  fun a b => inferInstanceAs (Decidable (strLe a.fname b.fname = true))

instance : DecidableRel (fun a b : TissueDir => strLe a.tname b.tname = true) :=
  fun a b => inferInstanceAs (Decidable (strLe a.tname b.tname = true))

/-- Python `fname.lower().endswith(".txt")`. -/
def endsWithTxt (fname : String) : Bool :=
  startsWithChars ".txt".data.reverse (fname.data.map Char.toLower).reverse

/-- The files of one tissue directory in processing order:
`sorted(os.listdir(tissue_dir))`, keeping only `.txt` files. -/
def discoveredFiles (t : TissueDir) : List FileEntry :=
  (List.insertionSort (fun a b : FileEntry => strLe a.fname b.fname = true) t.files).filter
    (fun f => endsWithTxt f.fname)

/-- The tissue directories in processing order: `sorted(os.listdir(subset_dir))`. -/
def sortedTissues (d : SubsetDir) : List TissueDir :=
  List.insertionSort (fun a b : TissueDir => strLe a.tname b.tname = true) d.tissues

/-- The absolute path `os.path.join` builds for a discovered file. -/
def pathJoin (root subset tissue fname : String) : String :=
  root ++ "/vitis_vinifera/" ++ subset ++ "/" ++ tissue ++ "/" ++ fname

/-- One `_load_single_file` invocation for a discovered file, with the
tissue/condition context the loop passes. -/
def processFile (root subset tname : String) (f : FileEntry) :
    Except LoadError (PerFileDF × List VitisSampleInfo) :=
  load_single_file (pathJoin root subset tname f.fname) f.fname tname subset f.table

/-- Structural, error-propagating map: the loop that aborts the whole load
at the first raised exception. -/
def mapME (f : α → Except ε β) : List α → Except ε (List β)
  | [] => .ok []
  | a :: as => do
    let b ← f a
    let bs ← mapME f as
    pure (b :: bs)

/-- All files of one tissue directory, parsed in order. -/
def loadTissue (root subset : String) (t : TissueDir) :
    Except LoadError (List (PerFileDF × List VitisSampleInfo)) :=
  mapME (processFile root subset t.tname) (discoveredFiles t)

/-- The discovery plus per-file parsing stage of `_load_all`: the flattened
`per_file_dfs` and `sample_infos` accumulators. -/
def discoverAndParse (root subset : String) (d : SubsetDir) :
    Except LoadError (List PerFileDF × List VitisSampleInfo) := do
  let rss ← mapME (loadTissue root subset) (sortedTissues d)
  let rs := rss.flatten
  pure (rs.map Prod.fst, (rs.map Prod.snd).flatten)

/-! ### Gene reconciliation and assembly (`loader.py`: `_load_all`, tail) -/

/-- Model of `df.loc[cg]`: select the rows of `df` keyed by `cg`, in the
order of `cg`. -/
def restrictTo (cg : List String) (df : PerFileDF) : PerFileDF :=
  { cols := df.cols
    rows := cg.filterMap (fun g =>
      (df.rows.find? (fun r => decide (r.1 = g))).map (fun r => (g, r.2))) }

/-- The intersection accumulator of `_load_all`: genes of the first matrix
that every other matrix also contains (`set(df0.index)` intersected with
each `set(df.index)`), as a duplicate-free list. -/
def commonGenes (df0 : PerFileDF) (rest : List PerFileDF) : List String :=
  (df0.gkeys.filter (fun g => rest.all (fun df => decide (g ∈ df.gkeys)))).dedup

/-- The row index of `pd.concat(dfs, axis=1)` (outer join, `sort=False`):
the first-seen union of the per-file indexes. -/
def unionIndex (dfs : List PerFileDF) : List String :=
  dfs.foldl (fun acc df => acc ++ (df.gkeys.filter (fun g => decide (g ∉ acc))).dedup) []

/-- Model of `pd.concat(per_file_dfs, axis=1)`: columns are concatenated in
file order; a row holds each file's values for that gene when the file has
the gene, and `NaN` (`none`) cells otherwise. -/
def concatDFs (dfs : List PerFileDF) : MergedDF :=
  let gidx := unionIndex dfs
  { gindex := gidx
    cols := (dfs.map PerFileDF.cols).flatten
    rows := gidx.map (fun g =>
      (g, (dfs.map (fun df =>
            match df.rows.find? (fun r => decide (r.1 = g)) with
            | some r => r.2.map some
            | none => List.replicate df.cols.length none)).flatten)) }

/-- The values of the merged row keyed `g` (empty when `g` is absent). -/
def MergedDF.rowOf (m : MergedDF) (g : String) : List (Option Int) :=
  ((m.rows.find? (fun r => decide (r.1 = g))).map Prod.snd).getD []

/-- The reconciliation plus assembly tail of `_load_all`, applied to the
accumulated matrices and sample records.  The metadata reorder
`meta.set_index("sample_id").loc[counts.columns]` keeps, for every column
label occurrence, every metadata row bearing that label, in index order —
pandas label-based selection semantics. -/
def assemble (intersect : Bool) (dfs : List PerFileDF) (infos : List VitisSampleInfo) :
    Except LoadError (MergedDF × List VitisSampleInfo) :=
  match dfs with
  | [] => .error .emptyCorpus
  | df0 :: rest =>
    if intersect then
      let common := commonGenes df0 rest
      if common.isEmpty then .error .noCommonGenes
      else
        let counts := concatDFs ((df0 :: rest).map (restrictTo (sortStrings common)))
        .ok (counts, counts.cols.flatMap
          (fun c => infos.filter (fun s => decide (s.sample_id = c))))
    else
      let counts := concatDFs (df0 :: rest)
      .ok (counts, counts.cols.flatMap
        (fun c => infos.filter (fun s => decide (s.sample_id = c))))

/-- Model of `VitisExpressionData._load_all`. -/
def loadAll (root subset : String) (intersect : Bool) (d : SubsetDir) :
    Except LoadError (MergedDF × List VitisSampleInfo) := do
  let pr ← discoverAndParse root subset d
  assemble intersect pr.1 pr.2

/-- The loaded state of a `VitisExpressionData` instance: the two artifacts
its read-only `counts` / `metadata` properties expose. -/
structure VitisExpressionData where
  counts : MergedDF
  metadata : List VitisSampleInfo
deriving DecidableEq, Repr

/-- Model of the `VitisExpressionData` constructor: `__init__` stores the
parameters and eagerly runs `_load_all`, or fails. -/
def loadVitis (root subset : String) (intersect : Bool) (d : SubsetDir) :
    Except LoadError VitisExpressionData :=
  (loadAll root subset intersect d).map (fun p => ⟨p.1, p.2⟩)

/-- Accessor `genes` (ordered row keys of `counts`). -/
def VitisExpressionData.genes (v : VitisExpressionData) : List String :=
  v.counts.gindex

/-- Accessor `samples` (ordered column keys of `counts`). -/
def VitisExpressionData.samples (v : VitisExpressionData) : List String :=
  v.counts.cols

/-- The index of the metadata table (one `sample_id` per row, in order). -/
def metadataIndex (meta : List VitisSampleInfo) : List String :=
  meta.map VitisSampleInfo.sample_id

/-! ### Downstream dataset (`datasets.py`: `ExpressionDataset`) -/

/-- The state an `ExpressionDataset` stores after `__init__`. -/
structure ExpressionDataset where
  X : List (List (Option Int))
  sample_ids : List String
  metadata : List VitisSampleInfo
  label_categories : List String
  y : List Nat
deriving DecidableEq, Repr

/-- Model of `ExpressionDataset.__init__`: align the metadata to the matrix
columns with `metadata_df.loc[counts_df.columns]`, transpose the matrix to
sample-major order, and encode the chosen label column with
`astype("category")`, whose categories are the distinct values in sorted
order and whose codes are positions in that category list.  `labelOf`
plays the role of selecting the `label_col` column. -/
def mkExpressionDataset (counts : MergedDF) (meta : List VitisSampleInfo)
    (labelOf : VitisSampleInfo → String) : ExpressionDataset :=
  let meta2 := counts.cols.flatMap (fun c => meta.filter (fun s => decide (s.sample_id = c)))
  let X := (List.range counts.cols.length).map
    (fun i => counts.rows.map (fun r => r.2.getD i none))
  let labels := meta2.map labelOf
  let cats := sortStrings labels.dedup
  { X := X
    sample_ids := counts.cols
    metadata := meta2
    label_categories := cats
    y := labels.map (fun v => cats.indexOf v) }

/-- Accessor `label_to_name`: position lookup in the category list. -/
def ExpressionDataset.label_to_name (d : ExpressionDataset) (i : Nat) : String :=
  d.label_categories.getD i ""

/-- Accessor `get_sample_metadata`: the metadata row whose index label is
the sample identifier at position `idx`. -/
def ExpressionDataset.get_sample_metadata (d : ExpressionDataset) (idx : Nat) :
    Option VitisSampleInfo :=
  d.metadata.find? (fun s => decide (s.sample_id = d.sample_ids.getD idx ""))

/-- Modelled from the spec: the encoding claimed by the specification for
label categories, namely distinct label values in first-seen order (the
order in which categories first appear along the sample axis), compared
below against what `astype("category")` actually produces. -/
def firstSeenCategories (labels : List String) : List String :=
  labels.dedup

/-! ### Auxiliary predicates used by claim statements -/

/-- The accession/original-column-name pairs a discovered file contributes. -/
def accCols (f : FileEntry) : List (String × String) :=
  (f.table.cols.drop 1).map (fun c => (parse_gse_from_filename f.fname, c))

/-- No two discovered files of a common tissue directory share an
accession token together with an original column name (claim C5's
hypothesis). -/
def noTissueCollision (d : SubsetDir) : Prop :=
  ∀ t ∈ d.tissues,
    (discoveredFiles t).Pairwise (fun f₁ f₂ => ∀ p ∈ accCols f₁, p ∉ accCols f₂)

deriving instance DecidableEq for Except

/-! ### Concrete inputs used by witnesses and counterexamples -/

/-- A one-gene counts matrix with two samples, used by the dataset claims. -/
def dsCounts : MergedDF :=
  { gindex := ["g1"], cols := ["s1", "s2"],
    rows := [("g1", [some 1, some 2])] }

/-- Metadata rows for `dsCounts`, in matrix column order: the `tissue`
column reads `leaf` then `berry`, so its first-seen category order differs
from its sorted order. -/
def dsMeta : List VitisSampleInfo :=
  [{ sample_id := "s1", original_name := "s1", tissue := "leaf",
     condition := "control", gse_accession := "GSE1", cultivar := none,
     file_path := "p1" },
   { sample_id := "s2", original_name := "s2", tissue := "berry",
     condition := "control", gse_accession := "GSE1", cultivar := none,
     file_path := "p2" }]

/-- The spec's dedup example: one file, two rows for gene `G` holding
`[1,2]` and `[3,4]` across two sample columns. -/
def dupTbl : RawTable :=
  { cols := ["Gene", "S1", "S2"], rows := [("G", [1, 2]), ("G", [3, 4])] }

/-- A file whose gene identifiers are already unique, in non-sorted order. -/
def uniqTbl : RawTable :=
  { cols := ["Gene", "S1", "S2"], rows := [("B", [1, 2]), ("A", [3, 4])] }

/-- A parsed table with fewer than two columns (no sample columns). -/
def badTbl : RawTable := { cols := ["Gene"], rows := [("g", [])] }

/-- A directory tree whose single discovered file is malformed. -/
def badDir : SubsetDir :=
  { tissues := [{ tname := "leaf",
                  files := [{ fname := "GSE1_control.txt", table := badTbl }] }] }

/-- The spec's end-to-end scenario: condition `control`, tissue `leaf`
with one file of 3 genes by 2 samples, tissue `berry` with one file
covering 2 of the 3 genes by 1 sample. -/
def endToEndDir : SubsetDir :=
  { tissues :=
      [{ tname := "leaf",
         files := [{ fname := "GSE100_control.txt",
                     table := { cols := ["Gene", "L1", "L2"],
                                rows := [("g1", [1, 2]), ("g2", [3, 4]),
                                         ("g3", [5, 6])] } }] },
       { tname := "berry",
         files := [{ fname := "GSE200_control.txt",
                     table := { cols := ["Gene", "B1"],
                                rows := [("g2", [7]), ("g1", [8])] } }] }] }

/-- The per-file matrices the discovery stage produces for `endToEndDir`
(tissues in sorted order: `berry` before `leaf`). -/
def eeDFS : List PerFileDF :=
  [{ cols := ["berry|GSE200|B1"], rows := [("g2", [7]), ("g1", [8])] },
   { cols := ["leaf|GSE100|L1", "leaf|GSE100|L2"],
     rows := [("g1", [1, 2]), ("g2", [3, 4]), ("g3", [5, 6])] }]

/-- The sample records the discovery stage produces for `endToEndDir`. -/
def eeINF : List VitisSampleInfo :=
  [{ sample_id := "berry|GSE200|B1", original_name := "B1", tissue := "berry",
     condition := "control", gse_accession := "GSE200", cultivar := none,
     file_path := "/r/vitis_vinifera/control/berry/GSE200_control.txt" },
   { sample_id := "leaf|GSE100|L1", original_name := "L1", tissue := "leaf",
     condition := "control", gse_accession := "GSE100", cultivar := none,
     file_path := "/r/vitis_vinifera/control/leaf/GSE100_control.txt" },
   { sample_id := "leaf|GSE100|L2", original_name := "L2", tissue := "leaf",
     condition := "control", gse_accession := "GSE100", cultivar := none,
     file_path := "/r/vitis_vinifera/control/leaf/GSE100_control.txt" }]

/-- The merged counts matrix for `endToEndDir` in intersection mode. -/
def eeCounts : MergedDF :=
  { gindex := ["g1", "g2"],
    cols := ["berry|GSE200|B1", "leaf|GSE100|L1", "leaf|GSE100|L2"],
    rows := [("g1", [some 8, some 1, some 2]),
             ("g2", [some 7, some 3, some 4])] }

/-- A directory tree whose two files have disjoint gene sets. -/
def disjointDir : SubsetDir :=
  { tissues :=
      [{ tname := "leaf",
         files := [{ fname := "GSE1_a.txt",
                     table := { cols := ["Gene", "X"], rows := [("a", [1])] } },
                   { fname := "GSE1_b.txt",
                     table := { cols := ["Gene", "Y"], rows := [("b", [2])] } }] }] }

/-- The per-file matrices for `disjointDir`. -/
def djDFS : List PerFileDF :=
  [{ cols := ["leaf|GSE1|X"], rows := [("a", [1])] },
   { cols := ["leaf|GSE1|Y"], rows := [("b", [2])] }]

/-- The sample records for `disjointDir`. -/
def djINF : List VitisSampleInfo :=
  [{ sample_id := "leaf|GSE1|X", original_name := "X", tissue := "leaf",
     condition := "control", gse_accession := "GSE1", cultivar := none,
     file_path := "/r/vitis_vinifera/control/leaf/GSE1_a.txt" },
   { sample_id := "leaf|GSE1|Y", original_name := "Y", tissue := "leaf",
     condition := "control", gse_accession := "GSE1", cultivar := none,
     file_path := "/r/vitis_vinifera/control/leaf/GSE1_b.txt" }]

/-- A directory tree in which two files of the same tissue and accession
share an original column name, so their synthesized sample identifiers
collide. -/
def collisionDir : SubsetDir :=
  { tissues :=
      [{ tname := "leaf",
         files := [{ fname := "GSE1_a.txt",
                     table := { cols := ["Gene", "S1"], rows := [("g1", [1])] } },
                   { fname := "GSE1_b.txt",
                     table := { cols := ["Gene", "S1"], rows := [("g1", [2])] } }] }] }

/-- The sample identifiers one discovered file contributes (the column
labels after renaming). -/
def fileIds (tname : String) (f : FileEntry) : List String :=
  (f.table.cols.drop 1).map
    (fun c => tname ++ "|" ++ parse_gse_from_filename f.fname ++ "|" ++ c)

/-- A directory tree whose tissue names contain the separator bar: two
files in different tissue directories synthesize the same sample
identifier even though no two files of a common tissue collide. -/
def pipeDir : SubsetDir :=
  { tissues :=
      [{ tname := "a",
         files := [{ fname := "f.txt",
                     table := { cols := ["Gene", "UNKNOWN|s"],
                                rows := [("g1", [1])] } }] },
       { tname := "a|UNKNOWN",
         files := [{ fname := "g.txt",
                     table := { cols := ["Gene", "s"],
                                rows := [("g1", [2])] } }] }] }

/-- The sample records the discovery stage produces for `pipeDir`: both
carry the identifier `a|UNKNOWN|UNKNOWN|s`. -/
def pipeINF : List VitisSampleInfo :=
  [{ sample_id := "a|UNKNOWN|UNKNOWN|s", original_name := "UNKNOWN|s",
     tissue := "a", condition := "control", gse_accession := "UNKNOWN",
     cultivar := none, file_path := "/r/vitis_vinifera/control/a/f.txt" },
   { sample_id := "a|UNKNOWN|UNKNOWN|s", original_name := "s",
     tissue := "a|UNKNOWN", condition := "control", gse_accession := "UNKNOWN",
     cultivar := none, file_path := "/r/vitis_vinifera/control/a|UNKNOWN/g.txt" }]

/-- The per-file matrices for `pipeDir`. -/
def pipeDFS : List PerFileDF :=
  [{ cols := ["a|UNKNOWN|UNKNOWN|s"], rows := [("g1", [1])] },
   { cols := ["a|UNKNOWN|UNKNOWN|s"], rows := [("g1", [2])] }]

/-- A tissue directory with its file list in sorted order: the canonical
form enumeration order cannot influence. -/
def canonTissue (t : TissueDir) : TissueDir :=
  { tname := t.tname,
    files := List.insertionSort (fun a b : FileEntry => strLe a.fname b.fname = true)
      t.files }

/-- `endToEndDir` with its tissue directories enumerated in the opposite
order, as a different file system might list them. -/
def endToEndDirPerm : SubsetDir :=
  { tissues :=
      [{ tname := "berry",
         files := [{ fname := "GSE200_control.txt",
                     table := { cols := ["Gene", "B1"],
                                rows := [("g2", [7]), ("g1", [8])] } }] },
       { tname := "leaf",
         files := [{ fname := "GSE100_control.txt",
                     table := { cols := ["Gene", "L1", "L2"],
                                rows := [("g1", [1, 2]), ("g2", [3, 4]),
                                         ("g3", [5, 6])] } }] }] }

/-- The loaded state for `collisionDir`: construction succeeds, the two
colliding columns each pull both matching metadata rows, so the metadata
has four rows against two matrix columns. -/
def colV : VitisExpressionData :=
  { counts := { gindex := ["g1"],
                cols := ["leaf|GSE1|S1", "leaf|GSE1|S1"],
                rows := [("g1", [some 1, some 2])] },
    metadata :=
      [{ sample_id := "leaf|GSE1|S1", original_name := "S1", tissue := "leaf",
         condition := "control", gse_accession := "GSE1", cultivar := none,
         file_path := "/r/vitis_vinifera/control/leaf/GSE1_a.txt" },
       { sample_id := "leaf|GSE1|S1", original_name := "S1", tissue := "leaf",
         condition := "control", gse_accession := "GSE1", cultivar := none,
         file_path := "/r/vitis_vinifera/control/leaf/GSE1_b.txt" },
       { sample_id := "leaf|GSE1|S1", original_name := "S1", tissue := "leaf",
         condition := "control", gse_accession := "GSE1", cultivar := none,
         file_path := "/r/vitis_vinifera/control/leaf/GSE1_a.txt" },
       { sample_id := "leaf|GSE1|S1", original_name := "S1", tissue := "leaf",
         condition := "control", gse_accession := "GSE1", cultivar := none,
         file_path := "/r/vitis_vinifera/control/leaf/GSE1_b.txt" }] }

/-- The loaded state for `endToEndDir` in intersection mode. -/
def eeV : VitisExpressionData := { counts := eeCounts, metadata := eeINF }

/-- `dsMeta` permuted and extended with a row for a sample that is not a
column of `dsCounts`, used by the alignment-invariance claim. -/
def dsMetaShuffled : List VitisSampleInfo :=
  [{ sample_id := "s2", original_name := "s2", tissue := "berry",
     condition := "control", gse_accession := "GSE1", cultivar := none,
     file_path := "p2" },
   { sample_id := "s0", original_name := "s0", tissue := "root",
     condition := "control", gse_accession := "GSE9", cultivar := none,
     file_path := "p0" },
   { sample_id := "s1", original_name := "s1", tissue := "leaf",
     condition := "control", gse_accession := "GSE1", cultivar := none,
     file_path := "p1" }]

/-! ### Parser soundness (claims C8, C9) -/

lemma gseAt_eq_none_iff (cs : List Char) :
    gseAt cs = none ↔ gseMatchAt cs 0 = false := by
  rcases cs with _ | ⟨g, _ | ⟨s, _ | ⟨e, _ | ⟨d, rest⟩⟩⟩⟩ <;>
    simp [gseAt, gseMatchAt, List.takeWhile] <;>
    by_cases hg : g.toLower = 'g' <;> by_cases hs : s.toLower = 's' <;>
    by_cases he : e.toLower = 'e' <;>
    simp [hg, hs, he] <;>
    by_cases hd : d.isDigit <;> simp [hd]

lemma gseAt_of_matchAt (cs : List Char) (h : gseMatchAt cs 0 = true) :
    gseAt cs = some ("GSE" ++ String.mk ((cs.drop 3).takeWhile Char.isDigit)) := by
  rcases cs with _ | ⟨g, _ | ⟨s, _ | ⟨e, _ | ⟨d, rest⟩⟩⟩⟩ <;>
    simp [gseMatchAt] at h
  obtain ⟨⟨⟨hg, hs⟩, he⟩, hd⟩ := h
  simp [gseAt, hg, hs, he, List.takeWhile, hd]

lemma gseMatchAt_cons_succ (c : Char) (cs : List Char) (i : Nat) :
    gseMatchAt (c :: cs) (i + 1) = gseMatchAt cs i := by
  simp [gseMatchAt]

lemma gseMatchAt_nil (i : Nat) : gseMatchAt [] i = false := by
  simp [gseMatchAt]

lemma gseFind_eq_none_iff (cs : List Char) :
    gseFind cs = none ↔ ∀ i, gseMatchAt cs i = false := by
  induction cs with
  | nil => simp [gseFind, gseMatchAt_nil]
  | cons c cs ih =>
    rw [gseFind]
    cases hat : gseAt (c :: cs) with
    | some r =>
      simp only [reduceCtorEq, false_iff]
      intro hall
      have h0 : gseMatchAt (c :: cs) 0 = false := hall 0
      rw [← gseAt_eq_none_iff] at h0
      rw [hat] at h0
      exact Option.noConfusion h0
    | none =>
      have h0 : gseMatchAt (c :: cs) 0 = false := (gseAt_eq_none_iff _).mp hat
      simp only [ih]
      constructor
      · intro hall i
        cases i with
        | zero => exact h0
        | succ j => rw [gseMatchAt_cons_succ]; exact hall j
      · intro hall i
        have := hall (i + 1)
        rwa [gseMatchAt_cons_succ] at this


lemma gseFind_first (cs : List Char) (i : Nat) (h : gseMatchAt cs i = true)
    (hmin : ∀ j, j < i → gseMatchAt cs j = false) :
    gseFind cs = some ("GSE" ++ String.mk ((cs.drop (i + 3)).takeWhile Char.isDigit)) := by
  induction cs generalizing i with
  | nil => rw [gseMatchAt_nil] at h; exact Bool.noConfusion h
  | cons c cs ih =>
    cases i with
    | zero =>
      rw [gseFind, gseAt_of_matchAt _ h]
    | succ j =>
      have h0 : gseMatchAt (c :: cs) 0 = false := hmin 0 (Nat.succ_pos j)
      have hat : gseAt (c :: cs) = none := (gseAt_eq_none_iff _).mpr h0
      rw [gseFind, hat]
      have h' : gseMatchAt cs j = true := by
        rwa [gseMatchAt_cons_succ] at h
      have hmin' : ∀ k, k < j → gseMatchAt cs k = false := by
        intro k hk
        have := hmin (k + 1) (Nat.succ_lt_succ hk)
        rwa [gseMatchAt_cons_succ] at this
      have := ih j h' hmin'
      rw [this]
      rfl

lemma startsWithChars_iff (n h : List Char) :
    startsWithChars n h = true ↔ ∃ post, h = n ++ post := by
  induction n generalizing h with
  | nil => simp [startsWithChars]
  | cons a as ih =>
    cases h with
    | nil => simp [startsWithChars]
    | cons b bs =>
      rw [startsWithChars]
      simp only [Bool.and_eq_true, decide_eq_true_eq, ih]
      constructor
      · rintro ⟨rfl, post, rfl⟩; exact ⟨post, rfl⟩
      · rintro ⟨post, heq⟩
        injection heq with h1 h2
        exact ⟨h1.symm, post, h2⟩

lemma containsSub_iff (n h : List Char) :
    containsSub n h = true ↔ occursIn n h := by
  induction h with
  | nil =>
    simp only [containsSub, List.isEmpty_iff, occursIn]
    constructor
    · rintro rfl; exact ⟨[], [], rfl⟩
    · rintro ⟨pre, post, heq⟩
      rcases List.append_eq_nil.mp heq.symm with ⟨h1, h2⟩
      exact (List.append_eq_nil.mp h1).2
  | cons c cs ih =>
    rw [containsSub]
    simp only [Bool.or_eq_true, startsWithChars_iff, ih, occursIn]
    constructor
    · rintro (⟨post, heq⟩ | ⟨pre, post, heq⟩)
      · exact ⟨[], post, by simpa using heq⟩
      · exact ⟨c :: pre, post, by simp [heq]⟩
    · rintro ⟨pre, post, heq⟩
      cases pre with
      | nil => exact Or.inl ⟨post, by simpa using heq⟩
      | cons p ps =>
        injection heq with h1 h2
        exact Or.inr ⟨ps, post, h2⟩

lemma gseAt_some_shape (cs : List Char) (r : String) (h : gseAt cs = some r) :
    ∃ ds : List Char, r = "GSE" ++ String.mk ds := by
  rcases cs with _ | ⟨g, _ | ⟨s, _ | ⟨e, rest⟩⟩⟩ <;> simp [gseAt] at h
  rcases h with ⟨⟨hg, hs, he⟩, h⟩
  rcases h with ⟨hne, hr⟩
  exact ⟨rest.takeWhile Char.isDigit, hr.symm⟩

lemma gse_append_ne_unknown (ds : List Char) :
    ("GSE" ++ String.mk ds : String) ≠ "UNKNOWN" := by
  intro h
  have h1 : ("GSE" ++ String.mk ds).data = "UNKNOWN".data := congrArg String.data h
  rw [String.data_append] at h1
  have h2 : 'G' :: 'S' :: 'E' :: ds = 'U' :: 'N' :: 'K' :: 'N' :: 'O' :: 'W' :: 'N' :: [] := h1
  injection h2 with h3 _
  exact absurd h3 (by decide)

lemma gseFind_some_ne_unknown (cs : List Char) (r : String)
    (h : gseFind cs = some r) : r ≠ "UNKNOWN" := by
  induction cs with
  | nil => exact absurd h (by simp [gseFind])
  | cons c cs ih =>
    rw [gseFind] at h
    cases hat : gseAt (c :: cs) with
    | some r' =>
      rw [hat] at h
      obtain ⟨ds, rfl⟩ := gseAt_some_shape _ _ ((Option.some_inj.mp h) ▸ hat)
      exact gse_append_ne_unknown ds
    | none =>
      rw [hat] at h
      exact ih h

/-- C8: for every filename, the accession parser returns `UNKNOWN` exactly
when no position of the filename starts a (case-insensitive) `GSE`-digits
match, and at the leftmost matching position it returns the literal `GSE`
followed by the maximal digit run there — i.e. the upper-cased first match
of the pattern.  Being a total function, it never fails. -/
theorem accession_parsing_correct (fname : String) :
    (parse_gse_from_filename fname = "UNKNOWN" ↔
      ∀ i, gseMatchAt fname.data i = false) ∧
    (∀ i, gseMatchAt fname.data i = true →
      (∀ j, j < i → gseMatchAt fname.data j = false) →
      parse_gse_from_filename fname =
        "GSE" ++ String.mk ((fname.data.drop (i + 3)).takeWhile Char.isDigit)) := by
  constructor
  · cases hfind : gseFind fname.data with
    | none =>
      simp only [parse_gse_from_filename, hfind, Option.getD_none, true_iff]
      exact (gseFind_eq_none_iff _).mp hfind
    | some r =>
      simp only [parse_gse_from_filename, hfind, Option.getD_some]
      constructor
      · intro hr; exact absurd hr (gseFind_some_ne_unknown _ _ hfind)
      · intro hall
        have : gseFind fname.data = none := (gseFind_eq_none_iff _).mpr hall
        rw [hfind] at this
        exact Option.noConfusion this
  · intro i h hmin
    simp only [parse_gse_from_filename, gseFind_first fname.data i h hmin,
      Option.getD_some]

/-- C8 witness: the theorem applied to the spec's own examples,
`GSE97900_control.txt` and `no_accession_here.txt`. -/
theorem accession_parsing_correct_witness :
    gseMatchAt "GSE97900_control.txt".data 0 = true ∧
    parse_gse_from_filename "GSE97900_control.txt" =
      "GSE" ++ String.mk (("GSE97900_control.txt".data.drop 3).takeWhile Char.isDigit) ∧
    ∀ i, gseMatchAt "no_accession_here.txt".data i = false :=
  ⟨by decide,
   (accession_parsing_correct "GSE97900_control.txt").2 0 (by decide)
     (fun j hj => absurd hj (Nat.not_lt_zero j)),
   (accession_parsing_correct "no_accession_here.txt").1.mp (by decide)⟩

/-- C9: for every filename, the cultivar parser returns `some "mueller"`
exactly when `mueller` occurs case-insensitively in the filename,
`some "regent"` exactly when `regent` occurs but `mueller` does not
(the fixed priority order), and `none` exactly when neither keyword occurs;
being a total function over a closed vocabulary, it never fails. -/
theorem cultivar_parsing_correct (fname : String) :
    (parse_cultivar_from_filename fname = some "mueller" ↔
      occursIn "mueller".data (fname.data.map Char.toLower)) ∧
    (parse_cultivar_from_filename fname = some "regent" ↔
      (occursIn "regent".data (fname.data.map Char.toLower) ∧
        ¬ occursIn "mueller".data (fname.data.map Char.toLower))) ∧
    (parse_cultivar_from_filename fname = none ↔
      (¬ occursIn "mueller".data (fname.data.map Char.toLower) ∧
        ¬ occursIn "regent".data (fname.data.map Char.toLower))) := by
  have hdef : parse_cultivar_from_filename fname =
      (if containsSub "mueller".data (fname.data.map Char.toLower) then some "mueller"
       else if containsSub "regent".data (fname.data.map Char.toLower) then some "regent"
       else none) := rfl
  rw [hdef, ← containsSub_iff, ← containsSub_iff]
  cases hm : containsSub "mueller".data (fname.data.map Char.toLower) <;>
    cases hr : containsSub "regent".data (fname.data.map Char.toLower) <;>
    simp



/-! ### The lexicographic string order used by `sorted` -/

lemma lexLeChars_cons (a b : Char) (as bs : List Char) :
    lexLeChars (a :: as) (b :: bs) =
      if a < b then true else if b < a then false else lexLeChars as bs := rfl

lemma lexLeChars_refl (a : List Char) : lexLeChars a a = true := by
  induction a with
  | nil => rfl
  | cons x xs ih => rw [lexLeChars_cons]; simp [lt_irrefl, ih]

lemma lexLeChars_total (a b : List Char) :
    lexLeChars a b = true ∨ lexLeChars b a = true := by
  induction a generalizing b with
  | nil => left; rfl
  | cons x xs ih =>
    cases b with
    | nil => right; rfl
    | cons y ys =>
      rcases lt_trichotomy x y with h | h | h
      · left; rw [lexLeChars_cons]; simp [h]
      · subst h
        rw [lexLeChars_cons, lexLeChars_cons]
        simpa [lt_irrefl] using ih ys
      · right; rw [lexLeChars_cons]; simp [h]

lemma lexLeChars_trans (a b c : List Char) (h1 : lexLeChars a b = true)
    (h2 : lexLeChars b c = true) : lexLeChars a c = true := by
  induction a generalizing b c with
  | nil => rfl
  | cons x xs ih =>
    cases b with
    | nil => exact absurd h1 (by simp [lexLeChars])
    | cons y ys =>
      cases c with
      | nil => exact absurd h2 (by simp [lexLeChars])
      | cons z zs =>
        rw [lexLeChars_cons] at h1 h2 ⊢
        by_cases hxy : x < y
        · by_cases hyz : y < z
          · simp [lt_trans hxy hyz]
          · by_cases hzy : z < y
            · simp [hyz, hzy] at h2
            · have hyz_eq : y = z := le_antisymm (not_lt.mp hzy) (not_lt.mp hyz)
              subst hyz_eq; simp [hxy]
        · by_cases hyx : y < x
          · simp [hxy, hyx] at h1
          · have hxy_eq : x = y := le_antisymm (not_lt.mp hyx) (not_lt.mp hxy)
            subst hxy_eq
            simp only [lt_irrefl, if_false] at h1
            by_cases hxz : x < z
            · simp [hxz]
            · by_cases hzx : z < x
              · simp [hxz, hzx] at h2
              · have hxz_eq : x = z := le_antisymm (not_lt.mp hzx) (not_lt.mp hxz)
                subst hxz_eq
                simp only [lt_irrefl, if_false] at h2 ⊢
                exact ih ys zs h1 h2

lemma lexLeChars_antisymm (a b : List Char) (h1 : lexLeChars a b = true)
    (h2 : lexLeChars b a = true) : a = b := by
  induction a generalizing b with
  | nil =>
    cases b with
    | nil => rfl
    | cons y ys => exact absurd h2 (by simp [lexLeChars])
  | cons x xs ih =>
    cases b with
    | nil => exact absurd h1 (by simp [lexLeChars])
    | cons y ys =>
      rw [lexLeChars_cons] at h1 h2
      by_cases hxy : x < y
      · simp [hxy, asymm hxy] at h2
      · by_cases hyx : y < x
        · simp [hxy, hyx] at h1
        · have hxy_eq : x = y := le_antisymm (not_lt.mp hyx) (not_lt.mp hxy)
          subst hxy_eq
          simp only [lt_irrefl, if_false] at h1 h2
          rw [ih ys h1 h2]

lemma strLe_total : ∀ a b : String, strLe a b = true ∨ strLe b a = true :=
  fun a b => lexLeChars_total a.data b.data

lemma strLe_trans {a b c : String} (h1 : strLe a b = true) (h2 : strLe b c = true) :
    strLe a c = true :=
  lexLeChars_trans a.data b.data c.data h1 h2

lemma strLe_antisymm {a b : String} (h1 : strLe a b = true) (h2 : strLe b a = true) :
    a = b :=
  String.ext (lexLeChars_antisymm a.data b.data h1 h2)

lemma sortStrings_sorted (l : List String) :
    (sortStrings l).Sorted (fun a b => strLe a b = true) := by
  haveI : IsTotal String (fun a b => strLe a b = true) := ⟨strLe_total⟩
  haveI : IsTrans String (fun a b => strLe a b = true) :=
    ⟨fun _ _ _ h1 h2 => strLe_trans h1 h2⟩
  exact List.sorted_insertionSort _ l

lemma sortStrings_perm (l : List String) : List.Perm (sortStrings l) l :=
  List.perm_insertionSort _ l

lemma mem_sortStrings {l : List String} {v : String} :
    v ∈ sortStrings l ↔ v ∈ l :=
  (sortStrings_perm l).mem_iff

lemma sortStrings_nodup {l : List String} (h : l.Nodup) : (sortStrings l).Nodup :=
  (sortStrings_perm l).nodup_iff.mpr h

/-! ### Claims C4 and C10: the downstream dataset -/

lemma catsOf_pairwise (l : List String) :
    (sortStrings l.dedup).Pairwise (fun a b => strLe a b = true ∧ a ≠ b) :=
  (sortStrings_sorted l.dedup).and (sortStrings_nodup l.nodup_dedup)

lemma mem_catsOf {l : List String} {v : String} :
    v ∈ sortStrings l.dedup ↔ v ∈ l := by
  rw [mem_sortStrings, List.mem_dedup]

/-- C4 (amended): the dataset constructor maps the chosen metadata column
to integer labels whose category list is the distinct observed values in
sorted (lexicographically ascending) order — not first-seen order — each
label index is in the dense range below the number of categories, every
index in that range is hit, and the reverse lookup `label_to_name` returns
the sample's category value. -/
theorem label_encoding_correct (counts : MergedDF) (meta : List VitisSampleInfo)
    (labelOf : VitisSampleInfo → String) (ds : ExpressionDataset)
    (hds : ds = mkExpressionDataset counts meta labelOf) :
    ds.label_categories.Pairwise (fun a b => strLe a b = true ∧ a ≠ b) ∧
    (∀ v, v ∈ ds.label_categories ↔ v ∈ ds.metadata.map labelOf) ∧
    (∀ i, i < ds.y.length →
      ds.y.getD i 0 < ds.label_categories.length ∧
      ds.label_to_name (ds.y.getD i 0) = (ds.metadata.map labelOf).getD i "") ∧
    (∀ k, k < ds.label_categories.length → k ∈ ds.y) := by
  subst hds
  set m2 := counts.cols.flatMap
    (fun c => meta.filter (fun s => decide (s.sample_id = c))) with hm2
  have hmeta : (mkExpressionDataset counts meta labelOf).metadata = m2 := rfl
  have hcats : (mkExpressionDataset counts meta labelOf).label_categories =
      sortStrings (m2.map labelOf).dedup := rfl
  have hy : (mkExpressionDataset counts meta labelOf).y =
      (m2.map labelOf).map
        (fun v => (sortStrings (m2.map labelOf).dedup).indexOf v) := rfl
  set labels := m2.map labelOf with hlabels
  set cats := sortStrings labels.dedup with hcatsd
  refine ⟨?_, ?_, ?_, ?_⟩
  · rw [hcats]; exact catsOf_pairwise labels
  · intro v; rw [hcats, hmeta, ← hlabels, mem_catsOf]
  · intro i hi
    rw [hy] at hi ⊢
    rw [List.length_map] at hi
    have hgd : (labels.map (fun v => cats.indexOf v)).getD i 0 =
        cats.indexOf labels[i] := by
      rw [List.getD_eq_getElem _ _ (by simpa using hi), List.getElem_map]
    have hmem : labels[i] ∈ labels := List.getElem_mem _
    have hmemc : labels[i] ∈ cats := (mem_catsOf).mpr hmem
    have hlt : cats.indexOf labels[i] < cats.length :=
      List.indexOf_lt_length.mpr hmemc
    constructor
    · rw [hgd, hcats]; exact hlt
    · rw [hgd]
      unfold ExpressionDataset.label_to_name
      rw [hcats, hmeta, ← hlabels]
      rw [List.getD_eq_getElem _ _ hlt, List.getD_eq_getElem _ _ hi]
      exact List.getElem_indexOf hlt
  · intro k hk
    rw [hcats] at hk
    have hmem : cats[k] ∈ labels := (mem_catsOf).mp (List.getElem_mem hk)
    obtain ⟨j, hj, hjk⟩ := List.mem_iff_getElem.mp hmem
    rw [hy]
    refine List.mem_map.mpr ⟨labels[j], List.getElem_mem hj, ?_⟩
    rw [hjk]
    exact List.indexOf_getElem (sortStrings_nodup labels.nodup_dedup) k hk

/-- C4 witness: the amended encoding theorem applied to the concrete
counts matrix `dsCounts` and metadata `dsMeta` at sample position 0. -/
theorem label_encoding_correct_witness :
    (mkExpressionDataset dsCounts dsMeta VitisSampleInfo.tissue).y.getD 0 0 <
      (mkExpressionDataset dsCounts dsMeta VitisSampleInfo.tissue).label_categories.length ∧
    (mkExpressionDataset dsCounts dsMeta VitisSampleInfo.tissue).label_to_name
      ((mkExpressionDataset dsCounts dsMeta VitisSampleInfo.tissue).y.getD 0 0) =
      ((mkExpressionDataset dsCounts dsMeta VitisSampleInfo.tissue).metadata.map
        VitisSampleInfo.tissue).getD 0 "" :=
  (label_encoding_correct dsCounts dsMeta VitisSampleInfo.tissue _ rfl).2.2.1 0
    (by decide)

/-- C4 counterexample: on `dsCounts`/`dsMeta` the code's category list is
the sorted `["berry", "leaf"]`, not the first-seen `["leaf", "berry"]`
the claim describes, and the integer codes differ accordingly. -/
theorem label_encoding_first_seen_counterexample :
    (mkExpressionDataset dsCounts dsMeta VitisSampleInfo.tissue).label_categories ≠
      firstSeenCategories
        ((mkExpressionDataset dsCounts dsMeta VitisSampleInfo.tissue).metadata.map
          VitisSampleInfo.tissue) ∧
    (mkExpressionDataset dsCounts dsMeta VitisSampleInfo.tissue).y ≠
      ((mkExpressionDataset dsCounts dsMeta VitisSampleInfo.tissue).metadata.map
          VitisSampleInfo.tissue).map
        (fun v =>
          (firstSeenCategories
            ((mkExpressionDataset dsCounts dsMeta VitisSampleInfo.tissue).metadata.map
              VitisSampleInfo.tissue)).indexOf v) := by
  decide

lemma filter_sample_id_eq_single (l : List VitisSampleInfo) (s : VitisSampleInfo)
    (hl : (metadataIndex l).Nodup) (hs : s ∈ l) :
    l.filter (fun x => decide (x.sample_id = s.sample_id)) = [s] := by
  induction l with
  | nil => cases hs
  | cons a as ih =>
    rw [metadataIndex, List.map_cons, List.nodup_cons] at hl
    obtain ⟨hna, hnd⟩ := hl
    rcases List.mem_cons.mp hs with hsa | hs2
    · subst hsa
      rw [List.filter_cons_of_pos (by simp)]
      have hnil : as.filter (fun x => decide (x.sample_id = s.sample_id)) = [] := by
        rw [List.filter_eq_nil_iff]
        intro x hx
        simp only [decide_eq_true_eq]
        intro hxeq
        exact hna (hxeq ▸ List.mem_map_of_mem VitisSampleInfo.sample_id hx)
      rw [hnil]
    · have hne : a.sample_id ≠ s.sample_id := by
        intro he
        exact hna (he ▸ List.mem_map_of_mem VitisSampleInfo.sample_id hs2)
      rw [List.filter_cons_of_neg (by simp [hne])]
      exact ih hnd hs2

/-- C10: the dataset constructor re-selects and re-orders the metadata by
the matrix column order, so — whenever each metadata table has distinct
sample identifiers and the first table covers all matrix columns — any
permutation of the rows, with or without extra rows for samples outside
the matrix, yields an identical dataset and identical per-sample metadata
lookups. -/
theorem dataset_alignment_invariance (counts : MergedDF)
    (meta1 meta2 : List VitisSampleInfo) (labelOf : VitisSampleInfo → String)
    (h1 : (metadataIndex meta1).Nodup) (h2 : (metadataIndex meta2).Nodup)
    (hsub : ∀ s ∈ meta1, s ∈ meta2)
    (hcov : ∀ c ∈ counts.cols, ∃ s ∈ meta1, s.sample_id = c) :
    mkExpressionDataset counts meta1 labelOf = mkExpressionDataset counts meta2 labelOf ∧
    ∀ idx, (mkExpressionDataset counts meta1 labelOf).get_sample_metadata idx =
      (mkExpressionDataset counts meta2 labelOf).get_sample_metadata idx := by
  have key : ∀ c ∈ counts.cols,
      meta1.filter (fun s => decide (s.sample_id = c)) =
      meta2.filter (fun s => decide (s.sample_id = c)) := by
    intro c hc
    obtain ⟨s, hs, rfl⟩ := hcov c hc
    rw [filter_sample_id_eq_single meta1 s h1 hs,
      filter_sample_id_eq_single meta2 s h2 (hsub s hs)]
  have hflat : counts.cols.flatMap
        (fun c => meta1.filter (fun s => decide (s.sample_id = c))) =
      counts.cols.flatMap
        (fun c => meta2.filter (fun s => decide (s.sample_id = c))) := by
    unfold List.flatMap
    rw [List.map_congr_left key]
  have hmain : mkExpressionDataset counts meta1 labelOf =
      mkExpressionDataset counts meta2 labelOf := by
    unfold mkExpressionDataset
    rw [hflat]
  exact ⟨hmain, fun idx => by rw [hmain]⟩

/-- C10 witness: the invariance theorem applied to `dsCounts` with
`dsMeta` and its shuffled, extended variant `dsMetaShuffled`. -/
theorem dataset_alignment_invariance_witness :
    mkExpressionDataset dsCounts dsMeta VitisSampleInfo.tissue =
      mkExpressionDataset dsCounts dsMetaShuffled VitisSampleInfo.tissue :=
  (dataset_alignment_invariance dsCounts dsMeta dsMetaShuffled VitisSampleInfo.tissue
    (by decide) (by decide) (by decide) (by decide)).1

/-! ### Claim C3: per-file duplicate-gene reconciliation -/

lemma filter_key_eq_single {β : Type} (rows : List (String × β)) (g : String) (vs : β)
    (hn : (rows.map Prod.fst).Nodup) (hmem : (g, vs) ∈ rows) :
    rows.filter (fun r => decide (r.1 = g)) = [(g, vs)] := by
  induction rows with
  | nil => cases hmem
  | cons a as ih =>
    rw [List.map_cons, List.nodup_cons] at hn
    obtain ⟨hna, hnd⟩ := hn
    rcases List.mem_cons.mp hmem with hga | h2
    · subst hga
      rw [List.filter_cons_of_pos (by simp)]
      have hnil : as.filter (fun r => decide (r.1 = g)) = [] := by
        rw [List.filter_eq_nil_iff]
        intro x hx
        simp only [decide_eq_true_eq]
        intro hxeq
        apply hna
        have hx1 : x.1 ∈ as.map Prod.fst := List.mem_map_of_mem Prod.fst hx
        simpa [hxeq] using hx1
      rw [hnil]
    · have hne : ¬ (a.1 = g) := by
        intro he
        apply hna
        rw [he]
        simpa using List.mem_map_of_mem Prod.fst h2
      rw [List.filter_cons_of_neg (by simpa using hne)]
      exact ih hnd h2

lemma zipWith_add_replicate_zero (vs : List Int) :
    (List.replicate vs.length (0 : Int)).zipWith (· + ·) vs = vs := by
  induction vs with
  | nil => rfl
  | cons x xs ih =>
    rw [List.length_cons, List.replicate_succ, List.zipWith_cons_cons, zero_add, ih]

lemma sumVals_single (n : Nat) (vs : List Int) (h : vs.length = n) :
    sumVals n [vs] = vs := by
  simp only [sumVals, List.foldl_cons, List.foldl_nil]
  rw [← h]
  exact zipWith_add_replicate_zero vs

lemma load_single_file_ok (fpath fname tissue condition : String) (tbl : RawTable)
    (hcols : ¬ tbl.cols.length < 2) :
    load_single_file fpath fname tissue condition tbl =
      .ok ({ cols := (fileSampleInfos fpath fname tissue condition tbl).map
               VitisSampleInfo.sample_id
             rows := if (tbl.rows.map Prod.fst).Nodup then tbl.rows
                     else dedupSum (tbl.cols.length - 1) tbl.rows },
           fileSampleInfos fpath fname tissue condition tbl) := by
  unfold load_single_file
  rw [if_neg hcols]

lemma dedupSum_keys (n : Nat) (rows : List (String × List Int)) :
    (dedupSum n rows).map Prod.fst = sortStrings (rows.map Prod.fst).dedup := by
  unfold dedupSum
  rw [List.map_map]
  exact List.map_id' _

/-- C3: for every well-formed parsed file, duplicate rows sharing a gene
identifier are reconciled by summing their numeric values column-wise: in
the parsed result every gene key is unique, the gene keys are exactly
those of the input, every output row equals the column-wise sum of all
input rows bearing its gene, and a file whose gene identifiers are
already unique keeps its rows unchanged. -/
theorem dedup_by_sum (fpath fname tissue condition : String) (tbl : RawTable)
    (hcols : ¬ tbl.cols.length < 2)
    (hlen : ∀ r ∈ tbl.rows, r.2.length = tbl.cols.length - 1) :
    ∃ df infos,
      load_single_file fpath fname tissue condition tbl = .ok (df, infos) ∧
      df.gkeys.Nodup ∧
      (∀ g, g ∈ df.gkeys ↔ g ∈ tbl.rows.map Prod.fst) ∧
      (∀ g vs, (g, vs) ∈ df.rows →
        vs = sumVals (tbl.cols.length - 1)
          ((tbl.rows.filter (fun r => decide (r.1 = g))).map Prod.snd)) ∧
      ((tbl.rows.map Prod.fst).Nodup → df.rows = tbl.rows) := by
  have hok := load_single_file_ok fpath fname tissue condition tbl hcols
  by_cases hnd : (tbl.rows.map Prod.fst).Nodup
  · rw [if_pos hnd] at hok
    refine ⟨_, _, hok, hnd, fun g => Iff.rfl, ?_, fun _ => rfl⟩
    intro g vs hmem
    rw [filter_key_eq_single tbl.rows g vs hnd hmem, List.map_cons, List.map_nil,
      sumVals_single _ _ (hlen (g, vs) hmem)]
  · rw [if_neg hnd] at hok
    refine ⟨_, _, hok, ?_, ?_, ?_, fun h => absurd h hnd⟩
    · show ((dedupSum (tbl.cols.length - 1) tbl.rows).map Prod.fst).Nodup
      rw [dedupSum_keys]
      exact sortStrings_nodup (List.nodup_dedup _)
    · intro g
      show g ∈ (dedupSum (tbl.cols.length - 1) tbl.rows).map Prod.fst ↔ _
      rw [dedupSum_keys, mem_sortStrings, List.mem_dedup]
    · intro g vs hmem
      unfold dedupSum at hmem
      obtain ⟨g2, hg2, heq⟩ := List.mem_map.mp hmem
      have hg : g2 = g := congrArg Prod.fst heq
      have hvs : sumVals (tbl.cols.length - 1)
          ((tbl.rows.filter (fun r => decide (r.1 = g2))).map Prod.snd) = vs :=
        congrArg Prod.snd heq
      subst hg
      exact hvs.symm

/-- C3 witness: the theorem applied to the spec's dedup example (two rows
for `G` valued `[1,2]` and `[3,4]` merge into `[4,6]`) and to a file with
unique, unsorted gene identifiers, whose rows pass through unchanged. -/
theorem dedup_by_sum_witness :
    (¬ dupTbl.cols.length < 2) ∧
    (∃ df infos,
      load_single_file "p" "f.txt" "leaf" "control" dupTbl = .ok (df, infos) ∧
      df.gkeys.Nodup ∧
      (∀ g, g ∈ df.gkeys ↔ g ∈ dupTbl.rows.map Prod.fst) ∧
      (∀ g vs, (g, vs) ∈ df.rows →
        vs = sumVals (dupTbl.cols.length - 1)
          ((dupTbl.rows.filter (fun r => decide (r.1 = g))).map Prod.snd)) ∧
      ((dupTbl.rows.map Prod.fst).Nodup → df.rows = dupTbl.rows)) ∧
    load_single_file "p" "f.txt" "leaf" "control" dupTbl =
      .ok ({ cols := ["leaf|UNKNOWN|S1", "leaf|UNKNOWN|S2"]
             rows := [("G", [4, 6])] },
        [{ sample_id := "leaf|UNKNOWN|S1", original_name := "S1", tissue := "leaf",
           condition := "control", gse_accession := "UNKNOWN", cultivar := none,
           file_path := "p" },
         { sample_id := "leaf|UNKNOWN|S2", original_name := "S2", tissue := "leaf",
           condition := "control", gse_accession := "UNKNOWN", cultivar := none,
           file_path := "p" }]) ∧
    load_single_file "p" "u.txt" "leaf" "control" uniqTbl =
      .ok ({ cols := ["leaf|UNKNOWN|S1", "leaf|UNKNOWN|S2"]
             rows := [("B", [1, 2]), ("A", [3, 4])] },
        [{ sample_id := "leaf|UNKNOWN|S1", original_name := "S1", tissue := "leaf",
           condition := "control", gse_accession := "UNKNOWN", cultivar := none,
           file_path := "p" },
         { sample_id := "leaf|UNKNOWN|S2", original_name := "S2", tissue := "leaf",
           condition := "control", gse_accession := "UNKNOWN", cultivar := none,
           file_path := "p" }]) :=
  ⟨by decide,
   dedup_by_sum "p" "f.txt" "leaf" "control" dupTbl (by decide) (by decide),
   by decide, by decide⟩

/-! ### Claim C7: malformed files abort the whole load -/

lemma mapME_cons {α β ε : Type} (f : α → Except ε β) (a : α) (as : List α) :
    mapME f (a :: as) =
      (f a).bind (fun b => (mapME f as).bind (fun bs => .ok (b :: bs))) := rfl

lemma mapME_error_inv {α β ε : Type} (f : α → Except ε β) (l : List α) (e : ε)
    (h : mapME f l = .error e) : ∃ a ∈ l, f a = .error e := by
  revert h
  induction l with
  | nil =>
    intro h
    exact absurd h (by simp [mapME])
  | cons a as ih =>
    intro h
    rw [mapME_cons] at h
    cases hfa : f a with
    | error e2 =>
      rw [hfa] at h
      simp only [Except.bind] at h
      injection h with h2
      exact ⟨a, List.mem_cons_self a as, by rw [hfa, h2]⟩
    | ok b =>
      rw [hfa] at h
      simp only [Except.bind] at h
      cases hms : mapME f as with
      | error e3 =>
        rw [hms] at h
        simp only [Except.bind] at h
        injection h with h3
        obtain ⟨x, hx, hfx⟩ := ih (h3 ▸ hms)
        exact ⟨x, List.mem_cons_of_mem a hx, hfx⟩
      | ok bs =>
        rw [hms] at h
        simp only [Except.bind] at h
        exact absurd h (by simp)

lemma mapME_error_shape {α β : Type} (P : LoadError → Prop)
    (f : α → Except LoadError β) (l : List α)
    (hP : ∀ a ∈ l, ∀ e, f a = .error e → P e)
    (hex : ∃ a ∈ l, ∃ e, f a = .error e) :
    ∃ e, mapME f l = .error e ∧ P e := by
  revert hP hex
  induction l with
  | nil =>
    intro hP hex
    obtain ⟨a, ha, _⟩ := hex
    cases ha
  | cons a as ih =>
    intro hP hex
    cases hfa : f a with
    | error e =>
      refine ⟨e, ?_, hP a (List.mem_cons_self a as) e hfa⟩
      rw [mapME_cons, hfa]
      rfl
    | ok b =>
      have hex2 : ∃ x ∈ as, ∃ e, f x = .error e := by
        obtain ⟨x, hx, e, hfx⟩ := hex
        rcases List.mem_cons.mp hx with hxa | hx2
        · subst hxa
          rw [hfa] at hfx
          exact absurd hfx (by simp)
        · exact ⟨x, hx2, e, hfx⟩
      obtain ⟨e, hms, hPe⟩ :=
        ih (fun x hx e hfx => hP x (List.mem_cons_of_mem a hx) e hfx) hex2
      refine ⟨e, ?_, hPe⟩
      rw [mapME_cons, hfa]
      show Except.bind (mapME f as) _ = _
      rw [hms]
      rfl

lemma processFile_error_shape (root subset tname : String) (f : FileEntry)
    (e : LoadError) (h : processFile root subset tname f = .error e) :
    ∃ p, e = .malformedInput p := by
  unfold processFile at h
  by_cases hc : f.table.cols.length < 2
  · unfold load_single_file at h
    rw [if_pos hc] at h
    injection h with h2
    exact ⟨pathJoin root subset tname f.fname, h2.symm⟩
  · rw [load_single_file_ok _ _ _ _ _ hc] at h
    exact Except.noConfusion h

lemma loadTissue_error_shape (root subset : String) (t : TissueDir) (e : LoadError)
    (h : loadTissue root subset t = .error e) : ∃ p, e = .malformedInput p := by
  unfold loadTissue at h
  obtain ⟨f, _, hfe⟩ := mapME_error_inv _ _ _ h
  exact processFile_error_shape _ _ _ _ _ hfe

lemma discoverAndParse_error (root subset : String) (d : SubsetDir) (e : LoadError)
    (h : mapME (loadTissue root subset) (sortedTissues d) = .error e) :
    discoverAndParse root subset d = .error e := by
  unfold discoverAndParse
  rw [h]
  rfl

lemma loadAll_of_discover_error (root subset : String) (intersect : Bool)
    (d : SubsetDir) (e : LoadError)
    (h : discoverAndParse root subset d = .error e) :
    loadAll root subset intersect d = .error e := by
  unfold loadAll
  rw [h]
  rfl

/-- C7: a per-file parse fails exactly when the parsed table has fewer
than two columns, the raised error is the malformed-input error carrying
the file path, and one such file among the discovered files aborts the
entire construction with a malformed-input error, so no counts matrix or
metadata table is produced. -/
theorem malformed_file_aborts (fpath fname tissue condition : String) (tbl : RawTable)
    (root subset : String) (intersect : Bool) (d : SubsetDir)
    (t : TissueDir) (f : FileEntry) :
    ((∃ e, load_single_file fpath fname tissue condition tbl = .error e) ↔
      tbl.cols.length < 2) ∧
    (tbl.cols.length < 2 →
      load_single_file fpath fname tissue condition tbl =
        .error (.malformedInput fpath)) ∧
    (t ∈ d.tissues → f ∈ discoveredFiles t → f.table.cols.length < 2 →
      ∃ p, loadAll root subset intersect d = .error (.malformedInput p)) := by
  refine ⟨⟨?_, ?_⟩, ?_, ?_⟩
  · rintro ⟨e, he⟩
    by_contra hc
    rw [load_single_file_ok _ _ _ _ _ hc] at he
    exact Except.noConfusion he
  · intro hc
    refine ⟨.malformedInput fpath, ?_⟩
    unfold load_single_file
    rw [if_pos hc]
  · intro hc
    unfold load_single_file
    rw [if_pos hc]
  · intro ht hf hbad
    have hts : t ∈ sortedTissues d := by
      unfold sortedTissues
      exact (List.perm_insertionSort _ _).mem_iff.mpr ht
    have hft : ∃ e, loadTissue root subset t = .error e ∧
        ∃ p, e = .malformedInput p := by
      unfold loadTissue
      apply mapME_error_shape
      · intro f2 hf2 e hfe
        exact processFile_error_shape _ _ _ _ _ hfe
      · refine ⟨f, hf, .malformedInput (pathJoin root subset t.tname f.fname), ?_⟩
        unfold processFile load_single_file
        rw [if_pos hbad]
    obtain ⟨e, hte, p, hep⟩ := hft
    have houter : ∃ e2, mapME (loadTissue root subset) (sortedTissues d) = .error e2 ∧
        ∃ p2, e2 = .malformedInput p2 := by
      apply mapME_error_shape
      · intro t2 ht2 e2 he2
        exact loadTissue_error_shape _ _ _ _ he2
      · exact ⟨t, hts, e, hte⟩
    obtain ⟨e2, he2, p2, hep2⟩ := houter
    subst hep2
    exact ⟨p2, loadAll_of_discover_error _ _ _ _ _ (discoverAndParse_error _ _ _ _ he2)⟩

/-- C7 witness: the theorem applied to the one-column table `badTbl` and
to the directory tree `badDir` containing it. -/
theorem malformed_file_aborts_witness :
    badTbl.cols.length < 2 ∧
    load_single_file "p" "f.txt" "leaf" "control" badTbl =
      .error (.malformedInput "p") ∧
    (∃ p, loadAll "/r" "control" true badDir = .error (.malformedInput p)) :=
  ⟨by decide,
   (malformed_file_aborts "p" "f.txt" "leaf" "control" badTbl "/r" "control" true badDir
      { tname := "leaf", files := [{ fname := "GSE1_control.txt", table := badTbl }] }
      { fname := "GSE1_control.txt", table := badTbl }).2.1 (by decide),
   (malformed_file_aborts "p" "f.txt" "leaf" "control" badTbl "/r" "control" true badDir
      { tname := "leaf", files := [{ fname := "GSE1_control.txt", table := badTbl }] }
      { fname := "GSE1_control.txt", table := badTbl }).2.2
     (by decide) (by decide) (by decide)⟩

/-! ### Claim C2: gene-set reconciliation (intersection and union modes) -/

lemma loadAll_eq (root subset : String) (intersect : Bool) (d : SubsetDir)
    (dfs : List PerFileDF) (infos : List VitisSampleInfo)
    (hdp : discoverAndParse root subset d = .ok (dfs, infos)) :
    loadAll root subset intersect d = assemble intersect dfs infos := by
  unfold loadAll
  rw [hdp]
  rfl

lemma assemble_nil (intersect : Bool) (infos : List VitisSampleInfo) :
    assemble intersect [] infos = .error .emptyCorpus := rfl

lemma assemble_true_cons (df0 : PerFileDF) (rest : List PerFileDF)
    (infos : List VitisSampleInfo) :
    assemble true (df0 :: rest) infos =
      (if (commonGenes df0 rest).isEmpty then .error .noCommonGenes
       else
         .ok (concatDFs ((df0 :: rest).map (restrictTo (sortStrings (commonGenes df0 rest)))),
           (concatDFs ((df0 :: rest).map
              (restrictTo (sortStrings (commonGenes df0 rest))))).cols.flatMap
             (fun c => infos.filter (fun s => decide (s.sample_id = c))))) := rfl

lemma assemble_false_cons (df0 : PerFileDF) (rest : List PerFileDF)
    (infos : List VitisSampleInfo) :
    assemble false (df0 :: rest) infos =
      .ok (concatDFs (df0 :: rest),
        (concatDFs (df0 :: rest)).cols.flatMap
          (fun c => infos.filter (fun s => decide (s.sample_id = c)))) := rfl

lemma commonGenes_nodup (df0 : PerFileDF) (rest : List PerFileDF) :
    (commonGenes df0 rest).Nodup := by
  unfold commonGenes
  exact List.nodup_dedup _

lemma mem_commonGenes (df0 : PerFileDF) (rest : List PerFileDF) (g : String) :
    g ∈ commonGenes df0 rest ↔ g ∈ df0.gkeys ∧ ∀ df ∈ rest, g ∈ df.gkeys := by
  unfold commonGenes
  rw [List.mem_dedup, List.mem_filter]
  simp [List.all_eq_true]

lemma restrictTo_gkeys (cg : List String) (df : PerFileDF)
    (hsub : ∀ g ∈ cg, g ∈ df.gkeys) : (restrictTo cg df).gkeys = cg := by
  unfold restrictTo PerFileDF.gkeys
  induction cg with
  | nil => rfl
  | cons g cs ih =>
    have hg : g ∈ df.gkeys := hsub g (List.mem_cons_self _ _)
    have hfind : ∃ r, df.rows.find? (fun r => decide (r.1 = g)) = some r := by
      rw [← Option.isSome_iff_exists, List.find?_isSome]
      obtain ⟨r, hr, hr1⟩ := List.mem_map.mp hg
      exact ⟨r, hr, by simp [hr1]⟩
    obtain ⟨r, hr⟩ := hfind
    simp only [List.filterMap_cons, hr, Option.map_some']
    rw [List.map_cons]
    rw [ih (fun x hx => hsub x (List.mem_cons_of_mem g hx))]

lemma unionIndex_const (dfs : List PerFileDF) (cg : List String) (hnd : cg.Nodup)
    (hne : dfs ≠ []) (hkeys : ∀ df ∈ dfs, df.gkeys = cg) :
    unionIndex dfs = cg := by
  cases dfs with
  | nil => exact absurd rfl hne
  | cons df0 rest =>
    unfold unionIndex
    rw [List.foldl_cons]
    have hfe : df0.gkeys.filter (fun g => decide (g ∉ ([] : List String))) = df0.gkeys := by
      apply List.filter_eq_self.mpr
      intro a _
      simp
    have h0 : ([] : List String) ++
        (df0.gkeys.filter (fun g => decide (g ∉ ([] : List String)))).dedup = cg := by
      rw [List.nil_append, hfe, hkeys df0 (List.mem_cons_self _ _),
        List.dedup_eq_self.mpr hnd]
    rw [h0]
    have haux : ∀ (l : List PerFileDF) (acc : List String),
        (∀ df ∈ l, ∀ g ∈ df.gkeys, g ∈ acc) →
        l.foldl (fun acc df =>
          acc ++ (df.gkeys.filter (fun g => decide (g ∉ acc))).dedup) acc = acc := by
      intro l
      induction l with
      | nil => intro acc _; rfl
      | cons x xs ih =>
        intro acc hacc
        rw [List.foldl_cons]
        have hx : x.gkeys.filter (fun g => decide (g ∉ acc)) = [] := by
          rw [List.filter_eq_nil_iff]
          intro g hg
          simpa using hacc x (List.mem_cons_self _ _) g hg
        rw [hx]
        simp only [List.dedup_nil, List.append_nil]
        exact ih acc (fun df hdf => hacc df (List.mem_cons_of_mem _ hdf))
    apply haux
    intro df hdf g hg
    rw [hkeys df (List.mem_cons_of_mem _ hdf)] at hg
    exact hg

lemma mem_unionIndex (dfs : List PerFileDF) (g : String) :
    g ∈ unionIndex dfs ↔ ∃ df ∈ dfs, g ∈ df.gkeys := by
  have haux : ∀ (l : List PerFileDF) (acc : List String),
      g ∈ l.foldl (fun acc df =>
        acc ++ (df.gkeys.filter (fun x => decide (x ∉ acc))).dedup) acc ↔
      g ∈ acc ∨ ∃ df ∈ l, g ∈ df.gkeys := by
    intro l
    induction l with
    | nil => intro acc; simp
    | cons x xs ih =>
      intro acc
      rw [List.foldl_cons, ih]
      constructor
      · rintro (hacc | hxs)
        · rcases List.mem_append.mp hacc with h1 | h2
          · exact Or.inl h1
          · exact Or.inr ⟨x, List.mem_cons_self _ _,
              (List.mem_filter.mp (List.mem_dedup.mp h2)).1⟩
        · obtain ⟨df, hdf, hg⟩ := hxs
          exact Or.inr ⟨df, List.mem_cons_of_mem _ hdf, hg⟩
      · rintro (hacc | ⟨df, hdf, hg⟩)
        · exact Or.inl (List.mem_append.mpr (Or.inl hacc))
        · rcases List.mem_cons.mp hdf with hdx | hdf2
          · subst hdx
            by_cases hin : g ∈ acc
            · exact Or.inl (List.mem_append.mpr (Or.inl hin))
            · refine Or.inl (List.mem_append.mpr (Or.inr ?_))
              rw [List.mem_dedup, List.mem_filter]
              exact ⟨hg, by simpa using hin⟩
          · exact Or.inr ⟨df, hdf2, hg⟩
  unfold unionIndex
  rw [haux]
  simp

lemma find?_map_pair {β : Type} (l : List String) (f : String → β) (g : String)
    (hg : g ∈ l) :
    (l.map (fun x => (x, f x))).find? (fun r => decide (r.1 = g)) = some (g, f g) := by
  induction l with
  | nil => cases hg
  | cons x xs ih =>
    by_cases hx : x = g
    · subst hx
      simp [List.find?_cons]
    · rw [List.map_cons, List.find?_cons_of_neg _ (by simp [hx])]
      rcases List.mem_cons.mp hg with hgx | hgs
      · exact absurd hgx.symm hx
      · exact ih hgs

lemma concatDFs_gindex (dfs : List PerFileDF) :
    (concatDFs dfs).gindex = unionIndex dfs := rfl

lemma concatDFs_rowOf (dfs : List PerFileDF) (g : String) (hg : g ∈ unionIndex dfs) :
    (concatDFs dfs).rowOf g =
      (dfs.map (fun df =>
        match df.rows.find? (fun r => decide (r.1 = g)) with
        | some r => r.2.map some
        | none => List.replicate df.cols.length none)).flatten := by
  unfold concatDFs MergedDF.rowOf
  simp only []
  rw [find?_map_pair (unionIndex dfs) _ g hg]
  rfl

lemma missing_cell (dfs : List PerFileDF) (g : String) (df : PerFileDF)
    (hg : g ∈ unionIndex dfs) (hdf : df ∈ dfs)
    (hnk : g ∉ df.gkeys) (hc : df.cols ≠ []) :
    none ∈ (concatDFs dfs).rowOf g := by
  rw [concatDFs_rowOf dfs g hg, List.mem_flatten]
  refine ⟨_, List.mem_map_of_mem _ hdf, ?_⟩
  have hfind : df.rows.find? (fun r => decide (r.1 = g)) = none := by
    rw [List.find?_eq_none]
    intro r hr
    simp only [decide_eq_true_eq]
    intro hrg
    apply hnk
    have hmem : r.1 ∈ df.gkeys := List.mem_map_of_mem Prod.fst hr
    rwa [hrg] at hmem
  rw [hfind]
  have hlen : df.cols.length ≠ 0 := fun h0 => hc (List.length_eq_zero.mp h0)
  exact List.mem_replicate.mpr ⟨hlen, rfl⟩

/-- C2: with the gene-intersection flag enabled, every successful load has
a gene index that is strictly sorted ascending and holds exactly the genes
present in all per-file matrices; if no gene is common to all files the
construction fails with the no-common-genes error; with the flag disabled,
the gene index holds exactly the union of the per-file gene sets and every
row of a gene missed by some (nonempty) file has a missing-value cell. -/
theorem gene_reconciliation_correct (root subset : String) (d : SubsetDir)
    (dfs : List PerFileDF) (infos : List VitisSampleInfo)
    (hdp : discoverAndParse root subset d = .ok (dfs, infos)) :
    (∀ c m, loadAll root subset true d = .ok (c, m) →
      dfs ≠ [] ∧
      c.gindex.Pairwise (fun a b => strLe a b = true ∧ a ≠ b) ∧
      (∀ g, g ∈ c.gindex ↔ ∀ df ∈ dfs, g ∈ df.gkeys)) ∧
    (dfs ≠ [] → (¬ ∃ g, ∀ df ∈ dfs, g ∈ df.gkeys) →
      loadAll root subset true d = .error .noCommonGenes) ∧
    (∀ c m, loadAll root subset false d = .ok (c, m) →
      (∀ g, g ∈ c.gindex ↔ ∃ df ∈ dfs, g ∈ df.gkeys) ∧
      (∀ g df, g ∈ c.gindex → df ∈ dfs → g ∉ df.gkeys → df.cols ≠ [] →
        none ∈ c.rowOf g)) := by
  refine ⟨?_, ?_, ?_⟩
  · intro c m h
    rw [loadAll_eq root subset true d dfs infos hdp] at h
    cases dfs with
    | nil =>
      rw [assemble_nil] at h
      exact Except.noConfusion h
    | cons df0 rest =>
      rw [assemble_true_cons] at h
      by_cases hce : (commonGenes df0 rest).isEmpty
      · rw [if_pos hce] at h
        exact Except.noConfusion h
      · rw [if_neg hce] at h
        injection h with h2
        have hc : concatDFs ((df0 :: rest).map
            (restrictTo (sortStrings (commonGenes df0 rest)))) = c :=
          congrArg Prod.fst h2
        subst hc
        have hcgnd : (sortStrings (commonGenes df0 rest)).Nodup :=
          sortStrings_nodup (commonGenes_nodup df0 rest)
        have hsubkeys : ∀ g ∈ sortStrings (commonGenes df0 rest),
            g ∈ df0.gkeys ∧ ∀ df ∈ rest, g ∈ df.gkeys := fun g hg =>
          (mem_commonGenes df0 rest g).mp (mem_sortStrings.mp hg)
        have hkeys : ∀ df2 ∈ (df0 :: rest).map
            (restrictTo (sortStrings (commonGenes df0 rest))),
            df2.gkeys = sortStrings (commonGenes df0 rest) := by
          intro df2 hdf2
          obtain ⟨df, hdf, hrfl⟩ := List.mem_map.mp hdf2
          rw [← hrfl]
          apply restrictTo_gkeys
          intro g hg
          rcases List.mem_cons.mp hdf with hdx | hdfr
          · rw [hdx]
            exact (hsubkeys g hg).1
          · exact (hsubkeys g hg).2 df hdfr
        have hgidx : (concatDFs ((df0 :: rest).map
            (restrictTo (sortStrings (commonGenes df0 rest))))).gindex =
            sortStrings (commonGenes df0 rest) := by
          rw [concatDFs_gindex]
          exact unionIndex_const _ _ hcgnd (by simp) hkeys
        refine ⟨List.cons_ne_nil _ _, ?_, ?_⟩
        · rw [hgidx]
          exact (sortStrings_sorted _).and hcgnd
        · intro g
          rw [hgidx, mem_sortStrings, mem_commonGenes, List.forall_mem_cons]
  · intro hne hnc
    cases dfs with
    | nil => exact absurd rfl hne
    | cons df0 rest =>
      rw [loadAll_eq root subset true d (df0 :: rest) infos hdp, assemble_true_cons,
        if_pos ?_]
      rw [List.isEmpty_iff, List.eq_nil_iff_forall_not_mem]
      intro g hg
      apply hnc
      obtain ⟨h1, h2⟩ := (mem_commonGenes df0 rest g).mp hg
      refine ⟨g, ?_⟩
      rw [List.forall_mem_cons]
      exact ⟨h1, h2⟩
  · intro c m h
    rw [loadAll_eq root subset false d dfs infos hdp] at h
    cases dfs with
    | nil =>
      rw [assemble_nil] at h
      exact Except.noConfusion h
    | cons df0 rest =>
      rw [assemble_false_cons] at h
      injection h with h2
      have hc : concatDFs (df0 :: rest) = c := congrArg Prod.fst h2
      subst hc
      constructor
      · intro g
        rw [concatDFs_gindex]
        exact mem_unionIndex _ g
      · intro g df hg hdf hnk hc2
        rw [concatDFs_gindex] at hg
        exact missing_cell _ g df hg hdf hnk hc2

/-- C2 witness: the theorem applied to the spec's end-to-end scenario
(`endToEndDir`, common genes `g1` and `g2`) and to `disjointDir`, whose
two files share no gene and abort with the no-common-genes error. -/
theorem gene_reconciliation_correct_witness :
    discoverAndParse "/r" "control" endToEndDir = .ok (eeDFS, eeINF) ∧
    (eeDFS ≠ [] ∧
      eeCounts.gindex.Pairwise (fun a b => strLe a b = true ∧ a ≠ b) ∧
      (∀ g, g ∈ eeCounts.gindex ↔ ∀ df ∈ eeDFS, g ∈ df.gkeys)) ∧
    loadAll "/r" "control" true disjointDir = .error .noCommonGenes :=
  ⟨by decide,
   (gene_reconciliation_correct "/r" "control" endToEndDir eeDFS eeINF (by decide)).1
     eeCounts (eeCounts.cols.flatMap
       (fun c => eeINF.filter (fun s => decide (s.sample_id = c)))) (by decide),
   (gene_reconciliation_correct "/r" "control" disjointDir djDFS djINF (by decide)).2.1
     (by decide)
     (by
       rintro ⟨g, hg⟩
       have h1 := hg { cols := ["leaf|GSE1|X"], rows := [("a", [1])] }
         (List.mem_cons_self _ _)
       have h2 := hg { cols := ["leaf|GSE1|Y"], rows := [("b", [2])] }
         (List.mem_cons_of_mem _ (List.mem_cons_self _ _))
       simp only [PerFileDF.gkeys, List.map_cons, List.map_nil] at h1 h2
       rw [List.mem_singleton] at h1 h2
       rw [h1] at h2
       exact absurd h2 (by decide))⟩

/-! ### Claim C1: the metadata/counts alignment invariant -/

lemma mapME_ok_forall2 {α β ε : Type} (f : α → Except ε β) (l : List α) (ys : List β)
    (h : mapME f l = .ok ys) : List.Forall₂ (fun a b => f a = .ok b) l ys := by
  induction l generalizing ys with
  | nil =>
    have h0 : mapME f ([] : List α) = .ok [] := rfl
    rw [h0] at h
    injection h with h2
    rw [← h2]
    exact List.Forall₂.nil
  | cons a as ih =>
    rw [mapME_cons] at h
    cases hfa : f a with
    | error e =>
      rw [hfa] at h
      simp only [Except.bind] at h
      exact Except.noConfusion h
    | ok b =>
      rw [hfa] at h
      simp only [Except.bind] at h
      cases hms : mapME f as with
      | error e2 =>
        rw [hms] at h
        simp only [Except.bind] at h
        exact Except.noConfusion h
      | ok bs =>
        rw [hms] at h
        simp only [Except.bind] at h
        injection h with h2
        rw [← h2]
        exact List.Forall₂.cons hfa (ih bs hms)

lemma forall2_mem_right {α β : Type} {R : α → β → Prop} {l : List α} {ys : List β}
    (h : List.Forall₂ R l ys) (b : β) (hb : b ∈ ys) : ∃ a ∈ l, R a b := by
  induction h with
  | nil => cases hb
  | cons hr ht ih =>
    rcases List.mem_cons.mp hb with hbb | hb2
    · exact ⟨_, List.mem_cons_self _ _, hbb ▸ hr⟩
    · obtain ⟨a, ha, hR⟩ := ih hb2
      exact ⟨a, List.mem_cons_of_mem _ ha, hR⟩

lemma processFile_ok_inv (root subset tname : String) (f : FileEntry)
    (pr : PerFileDF × List VitisSampleInfo)
    (h : processFile root subset tname f = .ok pr) :
    ¬ f.table.cols.length < 2 ∧
    pr.2 = fileSampleInfos (pathJoin root subset tname f.fname) f.fname tname subset
      f.table ∧
    pr.1.cols = pr.2.map VitisSampleInfo.sample_id := by
  unfold processFile at h
  by_cases hc : f.table.cols.length < 2
  · unfold load_single_file at h
    rw [if_pos hc] at h
    exact Except.noConfusion h
  · rw [load_single_file_ok _ _ _ _ _ hc] at h
    injection h with h2
    subst h2
    exact ⟨hc, rfl, rfl⟩

lemma discoverAndParse_pairs (root subset : String) (d : SubsetDir)
    (rss : List (List (PerFileDF × List VitisSampleInfo)))
    (h : mapME (loadTissue root subset) (sortedTissues d) = .ok rss) :
    ∀ pr ∈ rss.flatten, pr.1.cols = pr.2.map VitisSampleInfo.sample_id := by
  intro pr hpr
  rw [List.mem_flatten] at hpr
  obtain ⟨res, hres, hprres⟩ := hpr
  obtain ⟨t, _, hlt⟩ := forall2_mem_right (mapME_ok_forall2 _ _ _ h) res hres
  unfold loadTissue at hlt
  obtain ⟨f, _, hpf⟩ := forall2_mem_right (mapME_ok_forall2 _ _ _ hlt) pr hprres
  exact (processFile_ok_inv _ _ _ _ _ hpf).2.2

lemma discoverAndParse_ok_inv (root subset : String) (d : SubsetDir)
    (dfs : List PerFileDF) (infos : List VitisSampleInfo)
    (h : discoverAndParse root subset d = .ok (dfs, infos)) :
    ∃ rss, mapME (loadTissue root subset) (sortedTissues d) = .ok rss ∧
      dfs = (rss.flatten).map Prod.fst ∧
      infos = ((rss.flatten).map Prod.snd).flatten := by
  unfold discoverAndParse at h
  cases hms : mapME (loadTissue root subset) (sortedTissues d) with
  | error e =>
    rw [hms] at h
    exact Except.noConfusion h
  | ok rss =>
    rw [hms] at h
    simp only [Except.bind, pure, Except.pure] at h
    injection h with h2
    exact ⟨rss, rfl, (congrArg Prod.fst h2).symm, (congrArg Prod.snd h2).symm⟩

lemma discoverAndParse_cols (root subset : String) (d : SubsetDir)
    (dfs : List PerFileDF) (infos : List VitisSampleInfo)
    (h : discoverAndParse root subset d = .ok (dfs, infos)) :
    (dfs.map PerFileDF.cols).flatten = infos.map VitisSampleInfo.sample_id := by
  obtain ⟨rss, hms, hdfs, hinf⟩ := discoverAndParse_ok_inv root subset d dfs infos h
  subst hdfs
  subst hinf
  conv_lhs => rw [List.map_map]
  conv_rhs => rw [List.map_flatten, List.map_map]
  congr 1
  apply List.map_congr_left
  intro pr hpr
  exact discoverAndParse_pairs root subset d rss hms pr hpr

lemma flatMap_filter_self (infos : List VitisSampleInfo)
    (hnd : (infos.map VitisSampleInfo.sample_id).Nodup) :
    (infos.map VitisSampleInfo.sample_id).flatMap
      (fun c => infos.filter (fun s => decide (s.sample_id = c))) = infos := by
  induction infos with
  | nil => rfl
  | cons a as ih =>
    have hnd2 := hnd
    rw [List.map_cons, List.nodup_cons] at hnd2
    obtain ⟨hna, hndas⟩ := hnd2
    rw [List.map_cons, List.flatMap_cons]
    rw [show (a :: as).filter (fun s => decide (s.sample_id = a.sample_id)) = [a] from
      filter_sample_id_eq_single (a :: as) a hnd (List.mem_cons_self _ _)]
    have hstep : (as.map VitisSampleInfo.sample_id).flatMap
        (fun c => (a :: as).filter (fun s => decide (s.sample_id = c))) =
        (as.map VitisSampleInfo.sample_id).flatMap
        (fun c => as.filter (fun s => decide (s.sample_id = c))) := by
      unfold List.flatMap
      congr 1
      apply List.map_congr_left
      intro c hc
      have hane : ¬ (a.sample_id = c) := fun he => hna (by rw [he]; exact hc)
      rw [List.filter_cons_of_neg (by simpa using hane)]
    rw [hstep, ih hndas]
    rfl

lemma loadVitis_ok_inv (root subset : String) (intersect : Bool) (d : SubsetDir)
    (v : VitisExpressionData) (h : loadVitis root subset intersect d = .ok v) :
    loadAll root subset intersect d = .ok (v.counts, v.metadata) := by
  unfold loadVitis at h
  cases hres : loadAll root subset intersect d with
  | error e =>
    rw [hres] at h
    exact Except.noConfusion h
  | ok pr =>
    rw [hres] at h
    simp only [Except.map] at h
    injection h with h2
    rw [← h2]

lemma assemble_ok_cols (intersect : Bool) (dfs : List PerFileDF)
    (infos : List VitisSampleInfo) (c : MergedDF) (m : List VitisSampleInfo)
    (h : assemble intersect dfs infos = .ok (c, m)) :
    c.cols = (dfs.map PerFileDF.cols).flatten ∧
    m = c.cols.flatMap (fun cc => infos.filter (fun s => decide (s.sample_id = cc))) := by
  cases dfs with
  | nil =>
    rw [assemble_nil] at h
    exact Except.noConfusion h
  | cons df0 rest =>
    cases intersect with
    | false =>
      rw [assemble_false_cons] at h
      injection h with h2
      have hc : concatDFs (df0 :: rest) = c := congrArg Prod.fst h2
      have hm := congrArg Prod.snd h2
      subst hc
      exact ⟨rfl, hm.symm⟩
    | true =>
      rw [assemble_true_cons] at h
      by_cases hce : (commonGenes df0 rest).isEmpty
      · rw [if_pos hce] at h
        exact Except.noConfusion h
      · rw [if_neg hce] at h
        injection h with h2
        have hc : concatDFs ((df0 :: rest).map
            (restrictTo (sortStrings (commonGenes df0 rest)))) = c :=
          congrArg Prod.fst h2
        have hm := congrArg Prod.snd h2
        subst hc
        refine ⟨?_, hm.symm⟩
        show (((df0 :: rest).map (restrictTo (sortStrings (commonGenes df0 rest)))).map
          PerFileDF.cols).flatten = ((df0 :: rest).map PerFileDF.cols).flatten
        rw [List.map_map]
        congr 1

/-- C1 (amended): for every successful construction in which the
discovered sample records carry pairwise distinct sample identifiers, the
index of the metadata table equals the columns of the counts matrix
exactly — same identifiers in the same order — also as exposed by the
read-only `metadata`/`samples` accessors. -/
theorem alignment_invariant (root subset : String) (intersect : Bool) (d : SubsetDir)
    (dfs : List PerFileDF) (infos : List VitisSampleInfo)
    (hdp : discoverAndParse root subset d = .ok (dfs, infos))
    (hnd : (infos.map VitisSampleInfo.sample_id).Nodup)
    (v : VitisExpressionData)
    (h : loadVitis root subset intersect d = .ok v) :
    metadataIndex v.metadata = v.counts.cols ∧
    metadataIndex v.metadata = v.samples := by
  have hla := loadVitis_ok_inv root subset intersect d v h
  rw [loadAll_eq root subset intersect d dfs infos hdp] at hla
  obtain ⟨hcc, hm⟩ := assemble_ok_cols intersect dfs infos v.counts v.metadata hla
  have hcole : v.counts.cols = infos.map VitisSampleInfo.sample_id :=
    hcc.trans (discoverAndParse_cols root subset d dfs infos hdp)
  have hmain : metadataIndex v.metadata = v.counts.cols := by
    rw [metadataIndex, hm, hcole, flatMap_filter_self infos hnd]
  exact ⟨hmain, hmain⟩

/-- C1 witness: the amended invariant applied to the end-to-end scenario
`endToEndDir`, whose three sample identifiers are distinct. -/
theorem alignment_invariant_witness :
    (eeINF.map VitisSampleInfo.sample_id).Nodup ∧
    metadataIndex eeV.metadata = eeV.counts.cols ∧
    metadataIndex eeV.metadata = eeV.samples :=
  ⟨by decide,
   (alignment_invariant "/r" "control" true endToEndDir eeDFS eeINF (by decide)
     (by decide) eeV (by decide)).1,
   (alignment_invariant "/r" "control" true endToEndDir eeDFS eeINF (by decide)
     (by decide) eeV (by decide)).2⟩

/-- C1 counterexample: on `collisionDir` the construction succeeds, yet the
metadata index (four rows — each duplicated column label selects every
matching metadata row) differs from the two matrix columns, so the claim
fails without a distinctness hypothesis. -/
theorem alignment_invariant_counterexample :
    loadVitis "/r" "control" true collisionDir = .ok colV ∧
    metadataIndex colV.metadata ≠ colV.counts.cols ∧
    metadataIndex colV.metadata ≠ colV.samples := by
  decide

/-! ### Claim C5: sample identifier uniqueness -/

lemma gseAt_some_digits (cs : List Char) (r : String) (h : gseAt cs = some r) :
    ∃ ds : List Char, r = "GSE" ++ String.mk ds ∧ ∀ c ∈ ds, c.isDigit := by
  rcases cs with _ | ⟨g, _ | ⟨s, _ | ⟨e, rest⟩⟩⟩ <;> simp [gseAt] at h
  rcases h with ⟨⟨hg, hs, he⟩, hne, hr⟩
  exact ⟨rest.takeWhile Char.isDigit, hr.symm,
    fun c hc => List.mem_takeWhile_imp hc⟩

lemma gseFind_pipe (cs : List Char) (r : String) (h : gseFind cs = some r) :
    '|' ∉ r.data := by
  induction cs with
  | nil => exact absurd h (by simp [gseFind])
  | cons c cs ih =>
    rw [gseFind] at h
    cases hat : gseAt (c :: cs) with
    | some r2 =>
      rw [hat] at h
      injection h with h2
      obtain ⟨ds, hr, hdig⟩ := gseAt_some_digits _ _ hat
      rw [← h2, hr]
      intro hmem
      rw [String.data_append] at hmem
      rcases List.mem_append.mp hmem with h1 | h3
      · exact absurd h1 (by decide)
      · exact absurd (hdig '|' h3) (by decide)
    | none =>
      rw [hat] at h
      exact ih h

lemma pipe_not_in_parse_gse (fname : String) :
    '|' ∉ (parse_gse_from_filename fname).data := by
  unfold parse_gse_from_filename
  cases h : gseFind fname.data with
  | none => decide
  | some r => exact gseFind_pipe _ _ h

lemma pipe_split : ∀ (a b x y : List Char), '|' ∉ a → '|' ∉ b →
    a ++ '|' :: x = b ++ '|' :: y → a = b ∧ x = y := by
  intro a
  induction a with
  | nil =>
    intro b x y _ hb h
    cases b with
    | nil =>
      rw [List.nil_append, List.nil_append] at h
      injection h with _ h2
      exact ⟨rfl, h2⟩
    | cons c bs =>
      rw [List.nil_append, List.cons_append] at h
      injection h with h1 _
      exact absurd (show '|' ∈ c :: bs by rw [h1]; exact List.mem_cons_self c bs) hb
  | cons c as ih =>
    intro b x y ha hb h
    cases b with
    | nil =>
      rw [List.cons_append, List.nil_append] at h
      injection h with h1 _
      exact absurd (show '|' ∈ c :: as by rw [← h1]; exact List.mem_cons_self c as) ha
    | cons c2 bs =>
      rw [List.cons_append, List.cons_append] at h
      injection h with h1 h2
      obtain ⟨hab, hxy⟩ := ih bs x y
        (fun hm => ha (List.mem_cons_of_mem _ hm))
        (fun hm => hb (List.mem_cons_of_mem _ hm)) h2
      rw [h1, hab]
      exact ⟨rfl, hxy⟩

lemma append_pipe_data (t g c : String) :
    (t ++ "|" ++ g ++ "|" ++ c).data = t.data ++ '|' :: (g.data ++ '|' :: c.data) := by
  simp only [String.data_append]
  simp [List.append_assoc]

lemma sample_id_inj (t1 g1 c1 t2 g2 c2 : String)
    (ht1 : '|' ∉ t1.data) (ht2 : '|' ∉ t2.data)
    (hg1 : '|' ∉ g1.data) (hg2 : '|' ∉ g2.data)
    (h : t1 ++ "|" ++ g1 ++ "|" ++ c1 = t2 ++ "|" ++ g2 ++ "|" ++ c2) :
    t1 = t2 ∧ g1 = g2 ∧ c1 = c2 := by
  have hd := congrArg String.data h
  rw [append_pipe_data, append_pipe_data] at hd
  obtain ⟨h1, h2⟩ := pipe_split t1.data t2.data _ _ ht1 ht2 hd
  obtain ⟨h3, h4⟩ := pipe_split g1.data g2.data _ _ hg1 hg2 h2
  exact ⟨String.ext h1, String.ext h3, String.ext h4⟩

lemma fileSampleInfos_ids (fpath fname tissue condition : String) (tbl : RawTable) :
    (fileSampleInfos fpath fname tissue condition tbl).map VitisSampleInfo.sample_id =
      (tbl.cols.drop 1).map
        (fun c => tissue ++ "|" ++ parse_gse_from_filename fname ++ "|" ++ c) := by
  unfold fileSampleInfos
  rw [List.map_map]
  rfl

lemma fileIds_nodup (tname : String) (f : FileEntry)
    (hpt : '|' ∉ tname.data) (hcols : (f.table.cols.drop 1).Nodup) :
    (fileIds tname f).Nodup := by
  unfold fileIds
  refine List.Nodup.map ?_ hcols
  intro c1 c2 hcc
  exact (sample_id_inj tname (parse_gse_from_filename f.fname) c1
    tname (parse_gse_from_filename f.fname) c2 hpt hpt
    (pipe_not_in_parse_gse f.fname) (pipe_not_in_parse_gse f.fname) hcc).2.2

lemma fileIds_disjoint_same_tissue (tname : String) (f1 f2 : FileEntry)
    (hpt : '|' ∉ tname.data)
    (hdisj : ∀ p ∈ accCols f1, p ∉ accCols f2) :
    ∀ x ∈ fileIds tname f1, x ∉ fileIds tname f2 := by
  intro x hx1 hx2
  unfold fileIds at hx1 hx2
  obtain ⟨c1, hc1, he1⟩ := List.mem_map.mp hx1
  obtain ⟨c2, hc2, he2⟩ := List.mem_map.mp hx2
  have heq := he1.trans he2.symm
  obtain ⟨_, hg, hc⟩ := sample_id_inj tname (parse_gse_from_filename f1.fname) c1
    tname (parse_gse_from_filename f2.fname) c2 hpt hpt
    (pipe_not_in_parse_gse f1.fname) (pipe_not_in_parse_gse f2.fname) heq
  apply hdisj (parse_gse_from_filename f1.fname, c1)
    (List.mem_map_of_mem _ hc1)
  rw [hg, hc]
  exact List.mem_map_of_mem _ hc2

lemma fileIds_disjoint_diff_tissue (t1 t2 : String) (f1 f2 : FileEntry)
    (h1 : '|' ∉ t1.data) (h2 : '|' ∉ t2.data) (hne : t1 ≠ t2) :
    ∀ x ∈ fileIds t1 f1, x ∉ fileIds t2 f2 := by
  intro x hx1 hx2
  unfold fileIds at hx1 hx2
  obtain ⟨c1, _, he1⟩ := List.mem_map.mp hx1
  obtain ⟨c2, _, he2⟩ := List.mem_map.mp hx2
  exact hne (sample_id_inj t1 (parse_gse_from_filename f1.fname) c1
    t2 (parse_gse_from_filename f2.fname) c2 h1 h2
    (pipe_not_in_parse_gse f1.fname) (pipe_not_in_parse_gse f2.fname)
    (he1.trans he2.symm)).1

lemma tissueIds_nodup (t : TissueDir)
    (hpt : '|' ∉ t.tname.data)
    (hcols : ∀ f ∈ discoveredFiles t, (f.table.cols.drop 1).Nodup)
    (hpair : (discoveredFiles t).Pairwise
      (fun f1 f2 => ∀ p ∈ accCols f1, p ∉ accCols f2)) :
    (((discoveredFiles t).map (fun f => fileIds t.tname f)).flatten).Nodup := by
  rw [List.nodup_flatten]
  constructor
  · intro l hl
    obtain ⟨f, hf, hrfl⟩ := List.mem_map.mp hl
    rw [← hrfl]
    exact fileIds_nodup t.tname f hpt (hcols f hf)
  · rw [List.pairwise_map]
    apply hpair.imp
    intro f1 f2 hdisj x hx1 hx2
    exact fileIds_disjoint_same_tissue t.tname f1 f2 hpt hdisj x hx1 hx2

lemma forall2_map_eq {α β γ : Type} {R : α → β → Prop} {l : List α} {ys : List β}
    (h : List.Forall₂ R l ys) (g : β → γ) (f : α → γ)
    (hfg : ∀ a b, R a b → g b = f a) : ys.map g = l.map f := by
  induction h with
  | nil => rfl
  | cons hr ht ih => rw [List.map_cons, List.map_cons, hfg _ _ hr, ih]

lemma loadTissue_ids (root subset : String) (t : TissueDir)
    (res : List (PerFileDF × List VitisSampleInfo))
    (h : loadTissue root subset t = .ok res) :
    res.map (fun pr => pr.2.map VitisSampleInfo.sample_id) =
      (discoveredFiles t).map (fun f => fileIds t.tname f) := by
  unfold loadTissue at h
  refine forall2_map_eq (mapME_ok_forall2 _ _ _ h) _ _ ?_
  intro f pr hpf
  obtain ⟨_, hinf, _⟩ := processFile_ok_inv _ _ _ _ _ hpf
  rw [hinf, fileSampleInfos_ids]
  rfl

lemma loadTissue_ids_flat (root subset : String) (t : TissueDir)
    (res : List (PerFileDF × List VitisSampleInfo))
    (h : loadTissue root subset t = .ok res) :
    ((res.map Prod.snd).flatten).map VitisSampleInfo.sample_id =
      ((discoveredFiles t).map (fun f => fileIds t.tname f)).flatten := by
  rw [List.map_flatten, List.map_map]
  exact congrArg List.flatten (loadTissue_ids root subset t res h)

lemma forall2_ids (root subset : String) (ts : List TissueDir)
    (rss : List (List (PerFileDF × List VitisSampleInfo)))
    (h : List.Forall₂ (fun t res => loadTissue root subset t = .ok res) ts rss) :
    ((rss.flatten.map Prod.snd).flatten).map VitisSampleInfo.sample_id =
      (ts.map (fun t =>
        ((discoveredFiles t).map (fun f => fileIds t.tname f)).flatten)).flatten := by
  induction h with
  | nil => rfl
  | cons hr ht ih =>
    simp only [List.flatten_cons, List.map_append, List.flatten_append, List.map_cons]
    congr 1
    exact loadTissue_ids_flat _ _ _ _ hr

lemma discoverAndParse_ids (root subset : String) (d : SubsetDir)
    (dfs : List PerFileDF) (infos : List VitisSampleInfo)
    (hdp : discoverAndParse root subset d = .ok (dfs, infos)) :
    infos.map VitisSampleInfo.sample_id =
      ((sortedTissues d).map (fun t =>
        ((discoveredFiles t).map (fun f => fileIds t.tname f)).flatten)).flatten := by
  obtain ⟨rss, hms, _, hinf⟩ := discoverAndParse_ok_inv root subset d dfs infos hdp
  subst hinf
  exact forall2_ids root subset (sortedTissues d) rss (mapME_ok_forall2 _ _ _ hms)

/-- C5 (amended): for every successful load in which no two discovered
files of a common tissue directory yield the same accession token together
with an identical original column name, and in which additionally the
tissue directory names contain no separator bar character, the tissue
directory names are distinct, and each discovered file's sample column
headers are distinct (which the CSV reader's header mangling guarantees),
the sample identifiers of all SampleRecords across the whole corpus are
pairwise distinct. -/
theorem sample_id_uniqueness (root subset : String) (d : SubsetDir)
    (dfs : List PerFileDF) (infos : List VitisSampleInfo)
    (hdp : discoverAndParse root subset d = .ok (dfs, infos))
    (hpipe : ∀ t ∈ d.tissues, '|' ∉ t.tname.data)
    (hnames : (d.tissues.map TissueDir.tname).Nodup)
    (hcols : ∀ t ∈ d.tissues, ∀ f ∈ discoveredFiles t, (f.table.cols.drop 1).Nodup)
    (hcoll : noTissueCollision d) :
    (infos.map VitisSampleInfo.sample_id).Nodup := by
  rw [discoverAndParse_ids root subset d dfs infos hdp, List.nodup_flatten]
  have hmem : ∀ t ∈ sortedTissues d, t ∈ d.tissues := fun t ht =>
    (List.perm_insertionSort _ _).mem_iff.mp ht
  constructor
  · intro l hl
    obtain ⟨t, ht, hrfl⟩ := List.mem_map.mp hl
    rw [← hrfl]
    exact tissueIds_nodup t (hpipe t (hmem t ht))
      (fun f hf => hcols t (hmem t ht) f hf) (hcoll t (hmem t ht))
  · rw [List.pairwise_map]
    have hnames2 : ((sortedTissues d).map TissueDir.tname).Nodup :=
      (((List.perm_insertionSort
        (fun a b : TissueDir => strLe a.tname b.tname = true)
        d.tissues).map TissueDir.tname).nodup_iff).mpr hnames
    have hne : (sortedTissues d).Pairwise (fun t1 t2 => t1.tname ≠ t2.tname) :=
      List.pairwise_map.mp hnames2
    refine List.Pairwise.imp_of_mem ?_ hne
    intro t1 t2 h1m h2m hneq x hx1 hx2
    rw [List.mem_flatten] at hx1 hx2
    obtain ⟨l1, hl1, hx1b⟩ := hx1
    obtain ⟨l2, hl2, hx2b⟩ := hx2
    obtain ⟨f1, _, hr1⟩ := List.mem_map.mp hl1
    obtain ⟨f2, _, hr2⟩ := List.mem_map.mp hl2
    rw [← hr1] at hx1b
    rw [← hr2] at hx2b
    exact fileIds_disjoint_diff_tissue t1.tname t2.tname f1 f2
      (hpipe t1 (hmem t1 h1m)) (hpipe t2 (hmem t2 h2m)) hneq x hx1b hx2b

/-- C5 witness: the amended uniqueness theorem applied to the end-to-end
scenario, whose tissue names `leaf` and `berry` are bar-free and distinct
and whose files do not collide. -/
theorem sample_id_uniqueness_witness :
    noTissueCollision endToEndDir ∧
    (eeINF.map VitisSampleInfo.sample_id).Nodup :=
  ⟨by unfold noTissueCollision; decide,
   sample_id_uniqueness "/r" "control" endToEndDir eeDFS eeINF
     (by decide) (by decide) (by decide) (by decide)
     (by unfold noTissueCollision; decide)⟩

/-- C5 counterexample: in `pipeDir` no two files of a common tissue
directory collide, yet — because a tissue name contains the separator
bar — two SampleRecords of different tissues share the sample identifier
`a|UNKNOWN|UNKNOWN|s`, while the load still succeeds. -/
theorem sample_id_uniqueness_counterexample :
    noTissueCollision pipeDir ∧
    discoverAndParse "/r" "control" pipeDir = .ok (pipeDFS, pipeINF) ∧
    (loadVitis "/r" "control" true pipeDir).isOk = true ∧
    ¬ (pipeINF.map VitisSampleInfo.sample_id).Nodup := by
  exact ⟨by unfold noTissueCollision; decide, by decide, by decide, by decide⟩

/-! ### Claim C6: determinism of the load -/

lemma sortFiles_idem (files : List FileEntry) :
    List.insertionSort (fun a b : FileEntry => strLe a.fname b.fname = true)
      (List.insertionSort (fun a b : FileEntry => strLe a.fname b.fname = true) files) =
    List.insertionSort (fun a b : FileEntry => strLe a.fname b.fname = true) files := by
  haveI : IsTotal FileEntry (fun a b => strLe a.fname b.fname = true) :=
    ⟨fun a b => strLe_total a.fname b.fname⟩
  haveI : IsTrans FileEntry (fun a b => strLe a.fname b.fname = true) :=
    ⟨fun _ _ _ h1 h2 => strLe_trans h1 h2⟩
  exact (List.sorted_insertionSort _ files).insertionSort_eq

lemma loadTissue_canon (root subset : String) (t : TissueDir) :
    loadTissue root subset (canonTissue t) = loadTissue root subset t := by
  unfold loadTissue canonTissue discoveredFiles
  rw [sortFiles_idem]

lemma mapME_map {α γ β ε : Type} (f : γ → Except ε β) (g : α → γ) (l : List α) :
    mapME f (l.map g) = mapME (fun a => f (g a)) l := by
  induction l with
  | nil => rfl
  | cons a as ih => rw [List.map_cons, mapME_cons, mapME_cons, ih]

lemma mapME_congr {α β ε : Type} (f g : α → Except ε β) (l : List α)
    (h : ∀ a ∈ l, f a = g a) : mapME f l = mapME g l := by
  induction l with
  | nil => rfl
  | cons a as ih =>
    rw [mapME_cons, mapME_cons, h a (List.mem_cons_self _ _),
      ih (fun x hx => h x (List.mem_cons_of_mem _ hx))]

lemma mapME_loadTissue_canon (root subset : String) (l : List TissueDir) :
    mapME (loadTissue root subset) (l.map canonTissue) =
      mapME (loadTissue root subset) l := by
  rw [mapME_map]
  exact mapME_congr _ _ l (fun t _ => loadTissue_canon root subset t)

lemma sortedTissues_sorted (d : SubsetDir) :
    (sortedTissues d).Pairwise (fun a b => strLe a.tname b.tname = true) := by
  haveI : IsTotal TissueDir (fun a b => strLe a.tname b.tname = true) :=
    ⟨fun a b => strLe_total a.tname b.tname⟩
  haveI : IsTrans TissueDir (fun a b => strLe a.tname b.tname = true) :=
    ⟨fun _ _ _ h1 h2 => strLe_trans h1 h2⟩
  exact List.sorted_insertionSort _ d.tissues

/-- C6: the load is deterministic.  Two directory trees whose tissue
directories (each taken with its files in sorted order) are permutations
of one another — as happens when a file system enumerates the same
unmodified tree in different orders — produce identical results, because
the loader sorts tissues and files before processing; tissue names must be
distinct, as directory names in one directory are. -/
theorem load_deterministic (root subset : String) (intersect : Bool)
    (d1 d2 : SubsetDir)
    (hnames : (d1.tissues.map TissueDir.tname).Nodup)
    (hperm : List.Perm (d1.tissues.map canonTissue) (d2.tissues.map canonTissue)) :
    loadAll root subset intersect d1 = loadAll root subset intersect d2 := by
  haveI : IsAntisymm TissueDir
      (fun a b => (strLe a.tname b.tname = true) ∧ a.tname ≠ b.tname) :=
    ⟨fun a b h1 h2 => absurd (strLe_antisymm h1.1 h2.1) h1.2⟩
  have hperm1 : List.Perm ((sortedTissues d1).map canonTissue)
      (d1.tissues.map canonTissue) :=
    (List.perm_insertionSort _ d1.tissues).map canonTissue
  have hperm2 : List.Perm ((sortedTissues d2).map canonTissue)
      (d2.tissues.map canonTissue) :=
    (List.perm_insertionSort _ d2.tissues).map canonTissue
  have hpermA : List.Perm ((sortedTissues d1).map canonTissue)
      ((sortedTissues d2).map canonTissue) :=
    (hperm1.trans hperm).trans hperm2.symm
  have hnames1 : (((sortedTissues d1).map canonTissue).map TissueDir.tname).Nodup := by
    rw [List.map_map]
    have he : (sortedTissues d1).map (TissueDir.tname ∘ canonTissue) =
        (sortedTissues d1).map TissueDir.tname :=
      List.map_congr_left (fun t _ => rfl)
    rw [he]
    exact ((List.perm_insertionSort _ d1.tissues).map TissueDir.tname).nodup_iff.mpr
      hnames
  have hnames2 : (((sortedTissues d2).map canonTissue).map TissueDir.tname).Nodup :=
    (hpermA.map TissueDir.tname).nodup_iff.mp hnames1
  have hsorted : ∀ d : SubsetDir,
      ((sortedTissues d).map canonTissue).Pairwise
        (fun a b => strLe a.tname b.tname = true) := by
    intro d
    refine List.Pairwise.map canonTissue ?_ (sortedTissues_sorted d)
    intro a b hab
    exact hab
  have hstrict : ∀ (l : List TissueDir),
      (l.map TissueDir.tname).Nodup →
      l.Pairwise (fun a b => strLe a.tname b.tname = true) →
      l.Pairwise (fun a b => (strLe a.tname b.tname = true) ∧ a.tname ≠ b.tname) := by
    intro l hnd hs
    exact hs.and (List.pairwise_map.mp hnd)
  have hA : (sortedTissues d1).map canonTissue = (sortedTissues d2).map canonTissue :=
    List.eq_of_perm_of_sorted hpermA
      (hstrict _ hnames1 (hsorted d1)) (hstrict _ hnames2 (hsorted d2))
  have hm : mapME (loadTissue root subset) (sortedTissues d1) =
      mapME (loadTissue root subset) (sortedTissues d2) := by
    rw [← mapME_loadTissue_canon root subset (sortedTissues d1), hA,
      mapME_loadTissue_canon]
  unfold loadAll discoverAndParse
  rw [hm]

/-- C6 witness: the determinism theorem applied to `endToEndDir` and the
oppositely enumerated `endToEndDirPerm`, plus the concrete observation
that the two loads agree. -/
theorem load_deterministic_witness :
    (endToEndDir.tissues.map TissueDir.tname).Nodup ∧
    loadAll "/r" "control" true endToEndDir =
      loadAll "/r" "control" true endToEndDirPerm :=
  ⟨by decide,
   load_deterministic "/r" "control" true endToEndDir endToEndDirPerm
     (by decide) (by decide)⟩

end VitisSpec
